import Mathlib

/-!
Shallow embedding of the LichessAnalyzer backend (Python) in Lean 4,
together with theorems settling the frozen claims about it.

Source files embedded here:
  * `backend/models.py`      — the pydantic data model (`CloudEval`, `GameData`,
    `MoveEvaluation`, `AnalysisReport`).
  * `backend/analyzer.py`    — `categorize_move`, `calculate_evaluation_delta`,
    `analyze_game` (the per-move analysis loop, the FEN precomputation, the
    placeholder substitution on fetch failure, and the concurrent gather).
  * `backend/pgn_parser.py`  — `parse_eval_from_comment`.
  * `backend/game_stats.py`  — `parse_eval_comment`.
  * `backend/lichess_api.py` — `parse_pgn_moves` and the retry loop of
    `fetch_cloud_eval`.

Modelling conventions:
  * Python `int` is `Int`/`Nat`; `None`-able fields are `Option`s.
  * Python exceptions are modelled as `Option`/`Except` values; a `try/except`
    block becomes a `match` on that value.
  * The external collaborators (the `python-chess` board, the network) are
    parameters: an abstract `ChessApi` record and fetch-outcome oracles.
  * Python string scanning (the `re` regexes of the source) is implemented
    directly on `List Char`, following each regex pattern literally.
  * Python `float` arithmetic in the eval-comment parsers is modelled with
    exact decimal (rational) arithmetic; truncation `int(x)` is truncation
    toward zero (`Int.div`), which agrees with Python on every exact value.
-/

namespace LichessAnalyzer

/-- Embedding of `models.CloudEval`: an engine evaluation of one position. -/
structure CloudEval where
  fen : String
  cp : Option Int := none
  mate : Option Int := none
  depth : Nat := 0
  nodes : Nat := 0
  pv : List String := []
deriving Repr, DecidableEq, Inhabited

/-- Embedding of `models.Player`. -/
structure Player where
  username : String
  rating : Option Int := none
deriving Repr, DecidableEq, Inhabited

/-- Embedding of `models.GameData`. -/
structure GameData where
  game_id : String
  white : Player
  black : Player
  pgn : String
  opening : Option String := none
  result : String
  moves : List String
deriving Repr, DecidableEq, Inhabited

/-- Embedding of `models.MoveEvaluation`: one Move Record of the report. -/
structure MoveEvaluation where
  ply : Nat
  move : String
  player : String
  before_eval : CloudEval
  after_eval : CloudEval
  delta_cp : Option Int := none
  delta_mate : Option Int := none
  category : String
  best_move : Option String := none
  summary : String
deriving Repr, DecidableEq, Inhabited

/-- Embedding of `models.AnalysisReport` (the `created_at` wall-clock
timestamp, a real-time value, is omitted). -/
structure AnalysisReport where
  game_id : String
  game_data : GameData
  evaluations : List MoveEvaluation
  total_moves : Nat
  white_mistakes : Nat
  black_mistakes : Nat
  white_blunders : Nat
  black_blunders : Nat
deriving Repr, DecidableEq, Inhabited

/-- Embedding of `analyzer.categorize_move` (analyzer.py lines 19-44). -/
def categorize_move (delta_cp delta_mate : Option Int) : String :=
  match delta_mate with
  | some dm =>
    if dm < 0 then "blunder"
    else if dm > 0 then "good"
    else "accurate"
  | none =>
    match delta_cp with
    | none => "accurate"
    | some dc =>
      let abs_delta := |dc|
      if abs_delta < 10 then "accurate"
      else if abs_delta < 50 then "good"
      else if abs_delta < 100 then "inaccuracy"
      else if abs_delta < 300 then "mistake"
      else "blunder"

/-- Embedding of `analyzer.calculate_evaluation_delta` (analyzer.py lines
47-86).  Python's `before_eval.cp or 0` coincides with `Option.getD _ 0`
(both `None` and `0` give `0`).  Returns `(delta_cp, delta_mate)`. -/
def calculate_evaluation_delta (before_eval after_eval : CloudEval)
    (is_white_turn : Bool) : Option Int × Option Int :=
  if before_eval.mate.isSome || after_eval.mate.isSome then
    match before_eval.mate, after_eval.mate with
    | none, some after_mate => (none, some after_mate)
    | some _, none => (none, some (-999))
    | some before_mate, some after_mate => (none, some (after_mate - before_mate))
    | none, none => (none, none)
  else
    let before_cp := before_eval.cp.getD 0
    let after_cp := after_eval.cp.getD 0
    (some (if is_white_turn then after_cp - before_cp else before_cp - after_cp), none)

/-- Severity rank of the five category labels returned by
`categorize_move`, in the order the source's thresholds produce them. -/
def category_severity (c : String) : Nat :=
  if c = "accurate" then 0
  else if c = "good" then 1
  else if c = "inaccuracy" then 2
  else if c = "mistake" then 3
  else 4

/-- Abstract interface to the external `python-chess` board used by
`analyzer.analyze_game`: `initial` is `chess.Board()`, `fen` is
`board.fen()`, `parseSan` is `board.parse_san` followed by `board.push`
(`none` models the exception path), and `bestSan` models the best-move
re-rendering `temp_board.san(temp_board.parse_san(pv_head))` on the
post-move board (`none` models its exception path). -/
structure ChessApi (B : Type) where
  initial : B
  fen : B → String
  parseSan : B → String → Option B
  bestSan : B → String → Option String

/-- Outcome of one call to the network fetch `fetch_cloud_eval` as seen by
`analyze_game`: either an evaluation or an exception, the latter tagged
with whether its message indicates a rate limit ("429"/"rate limit"). -/
inductive FetchOutcome where
  | ok (e : CloudEval)
  | err (is_rate_limit : Bool)
deriving Repr, DecidableEq

/-- The neutral placeholder evaluation `CloudEval(fen=fen, cp=0, mate=None,
depth=0, nodes=0, pv=[])` that `analyze_game` substitutes on fetch
failure (analyzer.py lines 146-153, 180, 203). -/
def placeholder_eval (fen : String) : CloudEval :=
  { fen := fen, cp := some 0, mate := none, depth := 0, nodes := 0, pv := [] }

/-- Embedding of the initial-position evaluation of `analyze_game`
(analyzer.py lines 140-153): fetch the start position, substituting the
zero placeholder when the fetch raises. -/
def initial_eval_of {B : Type} (api : ChessApi B) (fetch1 : String → FetchOutcome) : CloudEval :=
  match fetch1 (api.fen api.initial) with
  | .ok e => e
  | .err _ => placeholder_eval (api.fen api.initial)

/-- Embedding of the FEN precomputation of `analyze_game` (analyzer.py
lines 158-168): replay each move on a scratch board; a move that fails to
parse yields a `none` position key and leaves the board unchanged. -/
def compute_fens {B : Type} (api : ChessApi B) : B → List String → List (Option String)
  | _, [] => []
  | b, m :: ms =>
    match api.parseSan b m with
    | some b' => some (api.fen b') :: compute_fens api b' ms
    | none => none :: compute_fens api b ms

/-- Embedding of `fetch_with_semaphore` (analyzer.py lines 178-203): a
`none` FEN yields the empty-FEN placeholder without fetching; a failed
fetch yields the placeholder for that FEN, with one extra retry attempt
(`fetch2`) when the failure is a rate limit.  `fetch1` and `fetch2` are
the outcomes of the first and second network call for a FEN. -/
def fetch_with_semaphore (fetch1 fetch2 : String → FetchOutcome) : Option String → CloudEval
  | none => placeholder_eval ""
  | some f =>
    match fetch1 f with
    | .ok e => e
    | .err is_rate_limit =>
      if is_rate_limit then
        match fetch2 f with
        | .ok e => e
        | .err _ => placeholder_eval f
      else placeholder_eval f

/-- The list of per-move evaluations gathered by `analyze_game`
(analyzer.py line 221), in move order. -/
def after_evals_of {B : Type} (api : ChessApi B) (fetch1 fetch2 : String → FetchOutcome)
    (moves : List String) : List CloudEval :=
  (compute_fens api api.initial moves).map (fetch_with_semaphore fetch1 fetch2)

/-- Embedding of the per-move analysis loop of `analyze_game` (analyzer.py
lines 228-276).  `pairs` is `zip(game_data.moves, after_evals)`; `ply`
counts every input move (the `enumerate` index) while the board, the
previous evaluation and the color advance only when the move replays; a
move whose `parse_san` raises is skipped.  The `summarize` parameter
stands for `generate_summary`, whose float string formatting is not
modelled; no claim concerns the summary text. -/
def analyze_moves {B : Type} (api : ChessApi B)
    (summarize : String → String → Option Int → Option Int → Option String → String) :
    B → List (String × CloudEval) → CloudEval → Bool → Nat → List MoveEvaluation
  | _, [], _, _, _ => []
  | b, (move_san, after_eval) :: rest, previous_eval, is_white, ply =>
    match api.parseSan b move_san with
    | none => analyze_moves api summarize b rest previous_eval is_white (ply + 1)
    | some b' =>
      let d := calculate_evaluation_delta previous_eval after_eval is_white
      let category := categorize_move d.1 d.2
      let best_move :=
        match after_eval.pv with
        | [] => none
        | p :: _ => api.bestSan b' p
      { ply := ply, move := move_san,
        player := if is_white then "white" else "black",
        before_eval := previous_eval, after_eval := after_eval,
        delta_cp := d.1, delta_mate := d.2, category := category,
        best_move := best_move,
        summary := summarize move_san category d.1 d.2 best_move } ::
        analyze_moves api summarize b' rest after_eval (!is_white) (ply + 1)

/-- Embedding of `analyzer.analyze_game` (analyzer.py lines 135-294),
parameterized by the chess board interface and the network oracles. -/
def analyze_game {B : Type} (api : ChessApi B) (fetch1 fetch2 : String → FetchOutcome)
    (summarize : String → String → Option Int → Option Int → Option String → String)
    (game_data : GameData) : AnalysisReport :=
  let after_evals := after_evals_of api fetch1 fetch2 game_data.moves
  let evaluations := analyze_moves api summarize api.initial
    (game_data.moves.zip after_evals) (initial_eval_of api fetch1) true 1
  { game_id := game_data.game_id, game_data := game_data,
    evaluations := evaluations,
    total_moves := evaluations.length,
    white_mistakes := (evaluations.filter
      (fun e => e.player == "white" && (e.category == "mistake" || e.category == "blunder"))).length,
    black_mistakes := (evaluations.filter
      (fun e => e.player == "black" && (e.category == "mistake" || e.category == "blunder"))).length,
    white_blunders := (evaluations.filter
      (fun e => e.player == "white" && e.category == "blunder")).length,
    black_blunders := (evaluations.filter
      (fun e => e.player == "black" && e.category == "blunder")).length }

/-- Whether every move of the list replays successfully from board `b`
(no move is skipped by the analysis loop). -/
def replay_ok {B : Type} (api : ChessApi B) : B → List String → Bool
  | _, [] => true
  | b, m :: ms =>
    match api.parseSan b m with
    | some b' => replay_ok api b' ms
    | none => false

/-- Model of the concurrent fan-out `asyncio.gather` of `analyze_game`
(analyzer.py lines 212-221): each of the `n` fetches completes in some
order and writes its result into its own slot (write-once, per §5 of the
spec); afterwards the slots are read out in index order.  `order` is the
completion order of the fetches. -/
def run_gather (n : Nat) (result : Nat → CloudEval) (order : List Nat) : List CloudEval :=
  let slots := order.foldl (fun acc i => Function.update acc i (some (result i)))
    (fun _ => (none : Option CloudEval))
  (List.range n).map (fun i => (slots i).getD (placeholder_eval ""))

/-- Concrete chess interface on which `parse_san` rejects every move except
"e4": realizable by `python-chess`, where `"Zz9"` fails to parse from the
start position while `"e4"` succeeds. -/
def skip_api : ChessApi Nat :=
  { initial := 0, fen := fun _ => "f",
    parseSan := fun b m => if m = "e4" then some (b + 1) else none,
    bestSan := fun _ _ => none }

/-- Concrete chess interface on which every move replays successfully. -/
def ok_api : ChessApi Nat :=
  { initial := 0, fen := fun _ => "f",
    parseSan := fun b _ => some (b + 1),
    bestSan := fun _ _ => none }

/-- Network oracle whose every call fails with a non-rate-limit error. -/
def failing_fetch : String → FetchOutcome := fun _ => .err false

/-- Trivial summary formatter used for concrete instantiations. -/
def trivial_summary : String → String → Option Int → Option Int → Option String → String :=
  fun _ _ _ _ _ => ""

/-- A two-move game whose first move fails to replay ("Zz9" is not a legal
SAN move from the start position) while the second ("e4") succeeds. -/
def skip_game : GameData :=
  { game_id := "g", white := ⟨"w", none⟩, black := ⟨"b", none⟩,
    pgn := "", opening := none, result := "*", moves := ["Zz9", "e4"] }

/-- A two-move game in which every move replays successfully. -/
def ok_game : GameData :=
  { game_id := "g", white := ⟨"w", none⟩, black := ⟨"b", none⟩,
    pgn := "", opening := none, result := "*", moves := ["e4", "e5"] }

/-- The ASCII whitespace class of Python's `str.strip` and of `\s` in the
source regexes (the unicode extensions are outside every claim's inputs). -/
def isPyWs (c : Char) : Bool :=
  c == ' ' || c == '\t' || c == '\n' || c == '\r' || c == '\x0b' || c == '\x0c'

/-- Decimal digit class of `\d` (ASCII). -/
def isDigitChar (c : Char) : Bool :=
  c.isDigit

/-- Numeric value of a digit string. -/
def digitsToNat (ds : List Char) : Nat :=
  ds.foldl (fun n c => n * 10 + (c.toNat - '0'.toNat)) 0

/-- Python `int()` applied to an optionally signed digit string (the only
shapes the regex groups of the parsers can produce). -/
def pyIntVal (v : List Char) : Int :=
  match v with
  | [] => 0
  | c :: t =>
    if c = '-' then -(digitsToNat t : Int)
    else if c = '+' then (digitsToNat t : Int)
    else (digitsToNat (c :: t) : Int)

/-- Shape accepted by Python `int()` on the parsers' inputs: an optional
sign followed by at least one digit. -/
def pyIntShape (v : List Char) : Bool :=
  match v with
  | [] => false
  | c :: t =>
    if c = '-' ∨ c = '+' then !t.isEmpty && t.all isDigitChar
    else (c :: t).all isDigitChar

/-- Shape of the plain decimal numbers accepted by Python `float()` that
the claims concern: optional sign, then digits with an optional fractional
part, or a bare fractional part (`float`'s exponent/`inf`/`nan` forms are
not modelled; no claim exercises them). -/
def pyFloatShape (v : List Char) : Bool :=
  match v with
  | [] => false
  | c :: t =>
    let r := if c = '-' ∨ c = '+' then t else c :: t
    let ds := r.takeWhile isDigitChar
    match r.drop ds.length with
    | [] => !ds.isEmpty
    | '.' :: t2 => (!ds.isEmpty || !t2.isEmpty) && t2.all isDigitChar
    | _ => false

/-- Bit length of a natural number, i.e. `⌊log₂ n⌋ + 1` for positive `n`;
the fuel argument only bounds the recursion and never runs out when it
starts at `n` itself. -/
def bitLen : Nat → Nat → Nat
  | 0, _ => 0
  | fuel + 1, n => if n = 0 then 0 else bitLen fuel (n / 2) + 1

/-- `⌊log₂ (n / d)⌋` for positive `n` and `d`: the bit lengths give
`2^(t-1) < n/d < 2^(t+1)` for `t` their difference, and one comparison
settles which side of `2^t` the quotient lies on. -/
def ratLog2Floor (n d : Nat) : Int :=
  let t : Int := (bitLen n n : Int) - (bitLen d d : Int)
  if d * 2 ^ Int.toNat t ≤ n * 2 ^ Int.toNat (-t) then t else t - 1

/-- Round the nonnegative rational `n / d` (`d > 0`) to the nearest
integer, ties to even. -/
def ratRoundHalfEven (n d : Nat) : Nat :=
  let q := n / d
  let r := n % d
  if 2 * r < d then q
  else if d < 2 * r then q + 1
  else if q % 2 = 0 then q else q + 1

/-- IEEE-754 binary64 rounding (round to nearest, ties to even) of the
nonnegative rational `n / d` (`d > 0`): the magnitude as a significand and
ulp-exponent pair of value `m * 2 ^ e`, or `none` when the value rounds up
to infinity.  A normal number gets `e = ⌊log₂ (n/d)⌋ - 52`; below the
normal range the ulp exponent is pinned at the subnormal `-1074`. -/
def roundFloat (n d : Nat) : Option (Nat × Int) :=
  if n = 0 then some (0, 0)
  else
    let e : Int := max (ratLog2Floor n d - 52) (-1074)
    let m := ratRoundHalfEven (n * 2 ^ Int.toNat (-e)) (d * 2 ^ Int.toNat e)
    if 0 ≤ e ∧ 2 ^ 1024 ≤ m * 2 ^ Int.toNat e then none else some (m, e)

/-- Binary64 multiplication of the finite nonnegative magnitude
`m * 2 ^ e` by the exactly representable `100.0`: the exact product
rounded back to binary64. -/
def floatTimes100 (m : Nat) (e : Int) : Option (Nat × Int) :=
  if 0 ≤ e then roundFloat (m * 100 * 2 ^ Int.toNat e) 1
  else roundFloat (m * 100) (2 ^ Int.toNat (-e))

/-- Truncation toward zero of the finite nonnegative magnitude
`m * 2 ^ e` (Python `int()` on a nonnegative float). -/
def floatTruncInt (m : Nat) (e : Int) : Nat :=
  if 0 ≤ e then m * 2 ^ Int.toNat e else m / 2 ^ Int.toNat (-e)

/-- Magnitude of Python `int(float(·) * 100)` on the exact nonnegative
rational `n / d`: round the decimal value to binary64 (Python `float` of
a decimal string is correctly rounded), multiply by `100.0` with the
product rounded to binary64 again, truncate toward zero.  `none` models
the `OverflowError` that `int` raises when the float arithmetic has
overflowed to infinity. -/
def pyFloatTimes100IntMag (n d : Nat) : Option Nat :=
  match roundFloat n d with
  | none => none
  | some (m, e) =>
    match floatTimes100 m e with
    | none => none
    | some (m2, e2) => some (floatTruncInt m2 e2)

/-- Python `int(float(v) * 100)` on a plain signed decimal string,
computed through IEEE-754 binary64 arithmetic exactly as the source does:
so `0.23` gives 23 while `0.29` gives 28, because `float("0.29") * 100`
is `28.999999999999996`.  `none` models the `OverflowError` of `int` on
an infinite float, which both parsers catch. -/
def pyFloatTimes100Int (v : List Char) : Option Int :=
  match v with
  | [] => none
  | c :: t =>
    let sgn : Int := if c = '-' then -1 else 1
    let r := if c = '-' ∨ c = '+' then t else c :: t
    let intDs := r.takeWhile isDigitChar
    let fracDs := match r.drop intDs.length with
      | '.' :: t2 => t2.takeWhile isDigitChar
      | _ => []
    let k := fracDs.length
    (pyFloatTimes100IntMag (digitsToNat intDs * 10 ^ k + digitsToNat fracDs) (10 ^ k)).map
      (fun m : Nat => sgn * (m : Int))

/-- Python `str.strip()` on ASCII whitespace. -/
def pyStrip (cs : List Char) : List Char :=
  ((cs.dropWhile isPyWs).reverse.dropWhile isPyWs).reverse

/-- Embedding of `pgn_parser.PgnEval`. -/
structure PgnEval where
  cp : Option Int := none
  mate : Option Int := none
  depth : Option Int := none
  nodes : Option Int := none
  pv : List String := []
deriving Repr, DecidableEq, Inhabited

/-- Literal prefix `[%eval` of every eval-comment regex. -/
def evalLit : List Char := ['[', '%', 'e', 'v', 'a', 'l']

/-- Match a literal character sequence at the head of the input, returning
the remainder. -/
def matchLiteral : List Char → List Char → Option (List Char)
  | [], cs => some cs
  | _ :: _, [] => none
  | l :: ls, c :: cs => if c = l then matchLiteral ls cs else none

/-- Core of the signed-digit-run group matchers: an optional sign
character `s`, then `\d+` taken greedily, returning the signed group and
the remainder. -/
def signedDigits (s : Char) (r : List Char) : Option (List Char × List Char) :=
  match r with
  | [] => none
  | c :: t =>
    let sgn : List Char := if c = s then [s] else []
    let r2 := if c = s then t else c :: t
    let ds := r2.takeWhile isDigitChar
    if ds.isEmpty then none
    else some (sgn ++ ds, r2.drop ds.length)

/-- Group matcher for `cp=(-?\d+)` (first pattern of
`parse_eval_from_comment`). -/
def shapeCpEq (cs : List Char) : Option (List Char × List Char) :=
  match matchLiteral ['c', 'p', '='] cs with
  | none => none
  | some r => signedDigits '-' r

/-- Group matcher for `(-?\d+\.?\d*)` (second pattern of
`parse_eval_from_comment`). -/
def shapeDecimal (cs : List Char) : Option (List Char × List Char) :=
  match cs with
  | [] => none
  | c :: t =>
    let sgn : List Char := if c = '-' then ['-'] else []
    let r := if c = '-' then t else c :: t
    let ds := r.takeWhile isDigitChar
    if ds.isEmpty then none
    else
      match r.drop ds.length with
      | '.' :: t2 =>
        let fs := t2.takeWhile isDigitChar
        some (sgn ++ ds ++ '.' :: fs, t2.drop fs.length)
      | rem => some (sgn ++ ds, rem)

/-- Group matcher for `#(-?\d+)` (third pattern of
`parse_eval_from_comment`). -/
def shapeMateSigned (cs : List Char) : Option (List Char × List Char) :=
  match cs with
  | '#' :: r => signedDigits '-' r
  | _ => none

/-- Group matcher for `#(\+?\d+)` (fourth pattern of
`parse_eval_from_comment`). -/
def shapeMatePlus (cs : List Char) : Option (List Char × List Char) :=
  match cs with
  | '#' :: r => signedDigits '+' r
  | _ => none

/-- Attempt one of the `\[%eval\s+<shape>\]` patterns at the current
position: the literal `[%eval`, at least one whitespace character (taken
greedily; every value shape starts with a non-whitespace character), the
group shape, then the closing `]`. -/
def tryMatchAt (shape : List Char → Option (List Char × List Char))
    (cs : List Char) : Option (List Char) :=
  match matchLiteral evalLit cs with
  | none => none
  | some r =>
    let ws := r.takeWhile isPyWs
    if ws.isEmpty then none
    else
      match shape (r.drop ws.length) with
      | none => none
      | some (g, rem) =>
        match rem with
        | ']' :: _ => some g
        | _ => none

/-- Model of `re.search` for the `\[%eval\s+<shape>\]` patterns: try every
position left to right and return the first group found. -/
def searchEval (shape : List Char → Option (List Char × List Char)) :
    List Char → Option (List Char)
  | [] => none
  | c :: cs =>
    match tryMatchAt shape (c :: cs) with
    | some g => some g
    | none => searchEval shape cs

/-- Embedding of `pgn_parser.parse_eval_from_comment` (pgn_parser.py lines
71-119): the four `%eval` regex patterns are tried in source order and the
first whose regex matches determines the result; a `#` value becomes a
mate count (with any `+` stripped), a value containing `.` is a pawn
decimal converted via `int(float(v) * 100)` in binary64 arithmetic
(`pyFloatTimes100Int`; when `int` overflows, `cp` stays unset and the
function returns `None`), any other matched value is `int(v)` taken as
centipawns unchanged. -/
def parse_eval_from_comment (comment : List Char) : Option PgnEval :=
  if comment.isEmpty then none
  else
    match searchEval shapeCpEq comment with
    | some g => some { cp := some (pyIntVal g), mate := none }
    | none =>
      match searchEval shapeDecimal comment with
      | some g =>
        if g.contains '.' then
          (pyFloatTimes100Int g).map (fun n => { cp := some n, mate := none })
        else some { cp := some (pyIntVal g), mate := none }
      | none =>
        match searchEval shapeMateSigned comment with
        | some g => some { cp := none, mate := some (pyIntVal g) }
        | none =>
          match searchEval shapeMatePlus comment with
          | some g => some { cp := none, mate := some (pyIntVal g) }
          | none => none

/-- Attempt `\[%eval\s+([^\]]+)\]` (the single pattern of
`game_stats.parse_eval_comment`) at the current position.  Because `[^\]]`
also matches whitespace, when everything before `]` is whitespace the
regex backtracks and the group keeps exactly the last whitespace
character. -/
def tryMatchAnyAt (cs : List Char) : Option (List Char) :=
  match matchLiteral evalLit cs with
  | none => none
  | some r =>
    match r with
    | [] => none
    | c :: _ =>
      if isPyWs c then
        let total := r.takeWhile (fun x => x != ']')
        let ws := r.takeWhile isPyWs
        match r.drop total.length with
        | ']' :: _ =>
          if ws.length < total.length then some (total.drop ws.length)
          else if 2 ≤ total.length then some (total.drop (total.length - 1))
          else none
        | _ => none
      else none

/-- Model of `re.search` for `\[%eval\s+([^\]]+)\]`. -/
def searchAnyEval : List Char → Option (List Char)
  | [] => none
  | c :: cs =>
    match tryMatchAnyAt (c :: cs) with
    | some g => some g
    | none => searchAnyEval cs

/-- Embedding of `game_stats.parse_eval_comment` (game_stats.py lines
83-104), returning the `(cp, mate)` pair of the result dict: the matched
group is stripped; a value starting with `#` becomes `int` of the rest as
mate; any other value is `int(float(v) * 100)` in binary64 arithmetic
(`pyFloatTimes100Int`); a conversion failure — `float`/`int` rejecting
the text or `int` overflowing — returns `None`. -/
def parse_eval_comment (comment : List Char) : Option (Option Int × Option Int) :=
  match searchAnyEval comment with
  | none => none
  | some g =>
    match pyStrip g with
    | [] => none
    | c :: rest =>
      if c = '#' then
        if pyIntShape rest then some (none, some (pyIntVal rest)) else none
      else
        if pyFloatShape (c :: rest) then
          (pyFloatTimes100Int (c :: rest)).map (fun n => (some n, none))
        else none

/-- Python `str.split()` (split on whitespace runs, discarding empties);
`fuel` only bounds the recursion and never runs out when it starts at the
length of the list, since every step consumes at least one character. -/
def pySplitGo (fuel : Nat) (cs : List Char) : List (List Char) :=
  match fuel, cs with
  | _, [] => []
  | 0, _ :: _ => []
  | fuel + 1, c :: rest =>
    if isPyWs c then pySplitGo fuel rest
    else (c :: rest.takeWhile (fun x => !isPyWs x)) ::
      pySplitGo fuel (rest.dropWhile (fun x => !isPyWs x))

/-- Python `str.split()` on a whole list. -/
def pySplit (cs : List Char) : List (List Char) :=
  pySplitGo cs.length cs

/-- The `moves`/`pv` fields of a cloud-eval response: absent, a
space-delimited string, or an array of move tokens. -/
inductive JsonMoves where
  | absent
  | str (s : String)
  | arr (l : List String)
deriving Repr, DecidableEq

/-- One entry of the `pvs` array of the cloud-eval JSON response. -/
structure PvEntry where
  cp : Option Int := none
  mate : Option Int := none
  moves : JsonMoves := .absent
  pv : JsonMoves := .absent
deriving Repr, DecidableEq

/-- The JSON body of a cloud-eval response, with the fields
`fetch_cloud_eval` reads (lichess_api.py lines 855-882). -/
structure CloudEvalBody where
  fen : Option String := none
  knodes : Nat := 0
  depth : Option Nat := none
  pvs : Option (List PvEntry) := none
deriving Repr, DecidableEq

/-- Conversion of one pv entry and response body into a `CloudEval`
(lichess_api.py lines 860-882): `moves` or — when falsy — `pv`,
normalized to a token list (a string is split on whitespace if
non-blank); `knodes * 1000` nodes (0 when falsy); `fen`/`depth`
defaulted from the request. -/
def cloud_eval_of_pv (requestFen : String) (requestDepth : Nat) (b : CloudEvalBody)
    (p : PvEntry) : CloudEval :=
  let pv_fallback : JsonMoves :=
    match p.pv with
    | .absent => .arr []
    | x => x
  let pv_data : JsonMoves :=
    match p.moves with
    | .str s => if s = "" then pv_fallback else .str s
    | .arr l => if l = [] then pv_fallback else .arr l
    | .absent => pv_fallback
  let pv : List String :=
    match pv_data with
    | .str s => if pyStrip s.toList = [] then [] else (pySplit s.toList).map List.asString
    | .arr l => l
    | .absent => []
  { fen := b.fen.getD requestFen, cp := p.cp, mate := p.mate,
    depth := b.depth.getD requestDepth,
    nodes := if b.knodes = 0 then 0 else b.knodes * 1000,
    pv := pv }

/-- Embedding of the response parsing of `fetch_cloud_eval` (lichess_api.py
lines 855-882): first pv entry (`[{}]` default when the key is absent;
`none` models the uncaught IndexError when `pvs` is present but empty). -/
def parse_cloud_eval_response (requestFen : String) (requestDepth : Nat)
    (b : CloudEvalBody) : Option CloudEval :=
  match b.pvs with
  | some [] => none
  | some (p :: _) => some (cloud_eval_of_pv requestFen requestDepth b p)
  | none => some (cloud_eval_of_pv requestFen requestDepth b {})

/-- One network interaction as `fetch_cloud_eval` sees it: an HTTP
response with a status and JSON body, or a transport-level exception. -/
inductive NetResult where
  | http (status : Nat) (body : CloudEvalBody)
  | transportError
deriving Repr, DecidableEq

/-- The failure modes of `fetch_cloud_eval`: the 404 "not available"
ValueError, the 429 rate-limit ValueError, an HTTPStatusError from
`raise_for_status`, a transport error, the IndexError on an empty `pvs`
array, and the `max_retries = 0` edge in which the loop never runs. -/
inductive FetchError where
  | notAvailable
  | rateLimited
  | httpStatus (code : Nat)
  | transport
  | parseFailure
  | noData
deriving Repr, DecidableEq

/-- Embedding of the retry loop of `fetch_cloud_eval` (lichess_api.py
lines 812-853): `resp n` is the outcome of the `n`-th network call
(0-based).  A 404 raises (and the generic handler retries it); a 429
retries until the last attempt and then raises the rate-limit error; any
other non-2xx raises through `raise_for_status` and is retried; a 2xx
breaks out and parses.  The first `Nat` argument counts the remaining
loop iterations (started at `max_retries`, so that it runs out exactly
when `attempt` reaches `max_retries`).  Returns the number of attempts
made and the result. -/
def fetch_attempts (resp : Nat → NetResult) (fen : String) (depth : Nat)
    (max_retries : Nat) : Nat → Nat → Nat × Except FetchError CloudEval
  | 0, attempt => (attempt, .error .noData)
  | fuel + 1, attempt =>
    match resp attempt with
    | .transportError =>
      if attempt < max_retries - 1 then
        fetch_attempts resp fen depth max_retries fuel (attempt + 1)
      else (attempt + 1, .error .transport)
    | .http s b =>
      if s = 404 then
        if attempt < max_retries - 1 then
          fetch_attempts resp fen depth max_retries fuel (attempt + 1)
        else (attempt + 1, .error .notAvailable)
      else if s = 429 then
        if attempt < max_retries - 1 then
          fetch_attempts resp fen depth max_retries fuel (attempt + 1)
        else (attempt + 1, .error .rateLimited)
      else if 200 ≤ s ∧ s < 300 then
        (attempt + 1,
          match parse_cloud_eval_response fen depth b with
          | some e => .ok e
          | none => .error .parseFailure)
      else
        if attempt < max_retries - 1 then
          fetch_attempts resp fen depth max_retries fuel (attempt + 1)
        else (attempt + 1, .error (.httpStatus s))

/-- Embedding of `fetch_cloud_eval` (lichess_api.py lines 794-882),
starting the retry loop `for attempt in range(max_retries)` at attempt 0
with the remaining-iteration count `max_retries`. -/
def fetch_cloud_eval (resp : Nat → NetResult) (fen : String) (depth max_retries : Nat) :
    Nat × Except FetchError CloudEval :=
  fetch_attempts resp fen depth max_retries max_retries 0

/-- The response sequence of the C6 scenario: two 429s, then a 200 with a
concrete evaluation body. -/
def resp_429_429_200 : Nat → NetResult := fun n =>
  if n < 2 then .http 429 {}
  else .http 200
    { fen := some "rnbq-after", knodes := 105, depth := some 40,
      pvs := some [{ cp := some 18, mate := none, moves := .str "e7e5 g1f3", pv := .absent }] }

/-- Outcome of `chess.pgn.read_game` as `parse_pgn_moves` consumes it:
the call raised, returned `None`, or returned a game whose mainline SAN
re-rendering is the given list (the external `python-chess` collaborator
is abstract). -/
inductive PgnReadResult where
  | failed
  | noGame
  | game (mainline_san : List String)
deriving Repr, DecidableEq

/-- Python `str.split('\n')`. -/
def splitLinesNl : List Char → List (List Char)
  | [] => [[]]
  | c :: rest =>
    if c = '\n' then [] :: splitLinesNl rest
    else
      match splitLinesNl rest with
      | [] => [[c]]
      | l :: ls => (c :: l) :: ls

/-- The move-text assembly of `parse_pgn_moves` (lichess_api.py lines
722-729): join every stripped non-empty line not starting with `[`,
separated by spaces, then strip. -/
def build_move_text (pgn : List Char) : List Char :=
  pyStrip ((splitLinesNl pgn).foldl
    (fun acc line =>
      match pyStrip line with
      | [] => acc
      | c :: cs => if c = '[' then acc else acc ++ (' ' :: c :: cs))
    [])

/-- Character class stopping the `[^{}]*` runs of the brace-comment
regex. -/
def nonBrace (c : Char) : Bool :=
  !(c == '{' || c == '}')

/-- Matcher for the body of `\{[^{}]*(?:\{[^{}]*\}[^{}]*)*\}` after the
opening `{` (lichess_api.py line 733): consume non-brace runs and singly
nested `{...}` pairs until the closing `}`, returning the remainder
(packaged with the strict-consumption bound used for termination). -/
def braceMatchEnd (cs : List Char) : Option { rem : List Char // rem.length < cs.length } :=
  match h1 : cs.dropWhile nonBrace with
  | [] => none
  | c :: rest =>
    if c = '}' then
      some ⟨rest, by
        have e1 := List.Sublist.length_le (List.dropWhile_sublist (l := cs) nonBrace)
        rw [h1] at e1
        simp at e1
        omega⟩
    else
      match h2 : rest.dropWhile nonBrace with
      | [] => none
      | c2 :: rest2 =>
        if c2 = '}' then
          match braceMatchEnd rest2 with
          | some ⟨rem, hrem⟩ =>
            some ⟨rem, by
              have e1 := List.Sublist.length_le (List.dropWhile_sublist (l := cs) nonBrace)
              rw [h1] at e1
              have e2 := List.Sublist.length_le (List.dropWhile_sublist (l := rest) nonBrace)
              rw [h2] at e2
              simp at e1 e2
              omega⟩
          | none => none
        else none
termination_by cs.length
decreasing_by
  have e1 := List.Sublist.length_le (List.dropWhile_sublist (l := cs) nonBrace)
  rw [h1] at e1
  have e2 := List.Sublist.length_le (List.dropWhile_sublist (l := rest) nonBrace)
  rw [h2] at e2
  simp at e1 e2
  omega

/-- Embedding of the brace-comment removal
`re.sub(r'\{[^{}]*(?:\{[^{}]*\}[^{}]*)*\}', '', ...)` (lichess_api.py
line 733): scan left to right, removing each match; a `{` with no match
is kept. -/
def remove_braces : List Char → List Char
  | [] => []
  | c :: rest =>
    if c = '{' then
      match braceMatchEnd rest with
      | some ⟨rem, _⟩ => remove_braces rem
      | none => c :: remove_braces rest
    else c :: remove_braces rest
termination_by l => l.length
decreasing_by
  · rename_i hrem
    simp
    omega
  · simp
  · simp

/-- Embedding of the tag removal `re.sub(r'\[[^\]]*\]', '', ...)`
(lichess_api.py line 736): at each `[`, remove through the next `]` when
one exists. -/
def remove_brackets : List Char → List Char
  | [] => []
  | c :: rest =>
    if c = '[' then
      match h : rest.dropWhile (fun x => !(x == ']')) with
      | [] => c :: remove_brackets rest
      | _ :: rem => remove_brackets rem
    else c :: remove_brackets rest
termination_by l => l.length
decreasing_by
  · simp
  · have e := List.Sublist.length_le (List.dropWhile_sublist (l := t) (fun x => !(x == ']')))
    rw [h] at e
    simp at e ⊢
    omega
  · simp

/-- Does the text start with `\s*\d+\.` (the lookahead of the fallback
move regex)? -/
def lookNumberDot (cs : List Char) : Bool :=
  let cs1 := cs.dropWhile isPyWs
  let ds := cs1.takeWhile isDigitChar
  !ds.isEmpty && ((cs1.drop ds.length).headD ' ' == '.')

/-- The lazy capture `(.*?)(?=\s*\d+\.|$)` of the fallback move regex:
the shortest prefix whose remainder starts with `\s*\d+\.` or is the
end, returned with that remainder. -/
def findCaptureEnd : List Char → List Char × List Char
  | [] => ([], [])
  | c :: rest =>
    if lookNumberDot (c :: rest) then ([], c :: rest)
    else ((findCaptureEnd rest).1.cons c, (findCaptureEnd rest).2)

/-- Embedding of `re.findall(r'\d+\.\s+(.*?)(?=\s*\d+\.|$)', ...)`
(lichess_api.py lines 762-763): at each digit, require a digit run, a
dot and at least one whitespace character, then capture lazily up to the
next number-dot lookahead or the end; scanning resumes after the
capture. -/
def fallbackMatches : List Char → List (List Char)
  | [] => []
  | c :: rest =>
    if isDigitChar c then
      match h : (c :: rest).dropWhile isDigitChar with
      | '.' :: after1 =>
        if (after1.takeWhile isPyWs).isEmpty then fallbackMatches rest
        else
          (findCaptureEnd (after1.drop (after1.takeWhile isPyWs).length)).1 ::
            fallbackMatches (findCaptureEnd (after1.drop (after1.takeWhile isPyWs).length)).2
      | _ => fallbackMatches rest
    else fallbackMatches rest
termination_by l => l.length
decreasing_by
  · simp
  · have e1 := List.Sublist.length_le (List.dropWhile_sublist (l := c :: t) isDigitChar)
    rw [h] at e1
    have e3 : (after1.drop (after1.takeWhile isPyWs).length).length =
        after1.length - (after1.takeWhile isPyWs).length := List.length_drop _ _
    have e4 : ∀ l : List Char, ((findCaptureEnd l).2).length ≤ l.length := by
      intro l
      induction l with
      | nil => simp [findCaptureEnd]
      | cons x xs ih =>
        by_cases hl : lookNumberDot (x :: xs) = true
        · simp [findCaptureEnd, hl]
        · simp only [findCaptureEnd, Bool.not_eq_true] at hl ⊢
          rw [hl]
          simpa using Nat.le_succ_of_le ih
    have e4' := e4 (after1.drop (after1.takeWhile isPyWs).length)
    rename_i hws
    have e5 : (after1.takeWhile isPyWs).length ≠ 0 := by
      intro h0
      exact hws (by simpa using List.length_eq_zero.mp h0)
    simp at e1 ⊢
    omega
  · simp
  · simp

/-- Python `str.rstrip('#+')`. -/
def rstripHashPlus (cs : List Char) : List Char :=
  (cs.reverse.dropWhile (fun c => c == '#' || c == '+')).reverse

/-- The per-token filter of the fallback path (lichess_api.py lines
765-789): drop result symbols, strip trailing `#`/`+`, drop empty and
comment-like tokens, keep tokens that look like SAN moves. -/
def fallback_filter_tokens (cap : List Char) : List (List Char) :=
  (pySplit cap).filterMap (fun part =>
    if part = "1-0".toList ∨ part = "0-1".toList ∨ part = "1/2-1/2".toList ∨ part = ['*'] then
      none
    else
      match rstripHashPlus part with
      | [] => none
      | c0 :: p2 =>
        if c0 = '[' ∨ c0 = '{' ∨ c0 = '}' ∨ c0 = '%' ∨
            '[' ∈ c0 :: p2 ∨ '{' ∈ c0 :: p2 then none
        else if c0.isAlpha ∨ (matchLiteral "O-O".toList (c0 :: p2)).isSome ∨ c0.isUpper then
          some (c0 :: p2)
        else none)

/-- The regex fallback of `parse_pgn_moves`: captured move groups, each
split into filtered tokens, in order. -/
def regex_fallback_moves (moveText : List Char) : List (List Char) :=
  ((fallbackMatches moveText).map fallback_filter_tokens).flatten

/-- Embedding of `lichess_api.parse_pgn_moves` (lichess_api.py lines
715-791): assemble the move text (tags dropped, brace comments and
bracketed annotations removed), then return the `python-chess` mainline
SAN re-rendering when `read_game` yields a game, and otherwise (it
returned `None` or raised) run the regex fallback on the move text. -/
def parse_pgn_moves (readGame : String → PgnReadResult) (pgn : String) : List String :=
  let move_text := remove_brackets (remove_braces (build_move_text pgn.toList))
  match readGame pgn with
  | .game sans => sans
  | .noGame => (regex_fallback_moves move_text).map List.asString
  | .failed => (regex_fallback_moves move_text).map List.asString

/-- C1: in the pure-centipawn case (neither evaluation carries a mate value),
`calculate_evaluation_delta` returns a null `delta_mate` and the centipawn
delta `after.cp - before.cp` for a White mover and `before.cp - after.cp`
for a Black mover, with a missing centipawn field treated as `0`. -/
theorem calculate_evaluation_delta_centipawn_spec
    (before_eval after_eval : CloudEval) (is_white_turn : Bool)
    (hb : before_eval.mate = none) (ha : after_eval.mate = none) :
    calculate_evaluation_delta before_eval after_eval is_white_turn =
      (some (if is_white_turn then after_eval.cp.getD 0 - before_eval.cp.getD 0
             else before_eval.cp.getD 0 - after_eval.cp.getD 0), none) := by
  simp [calculate_evaluation_delta, hb, ha]

/-- Witness for C1: with `before.cp = 20` and `after.cp = 50`, the delta is
`+30` for a White mover and `-30` for a Black mover, with null `delta_mate`. -/
theorem calculate_evaluation_delta_centipawn_spec_witness :
    calculate_evaluation_delta ⟨"before", some 20, none, 0, 0, []⟩
        ⟨"after", some 50, none, 0, 0, []⟩ true = (some 30, none) ∧
    calculate_evaluation_delta ⟨"before", some 20, none, 0, 0, []⟩
        ⟨"after", some 50, none, 0, 0, []⟩ false = (some (-30), none) := by
  have h1 := calculate_evaluation_delta_centipawn_spec
    ⟨"before", some 20, none, 0, 0, []⟩ ⟨"after", some 50, none, 0, 0, []⟩ true rfl rfl
  have h2 := calculate_evaluation_delta_centipawn_spec
    ⟨"before", some 20, none, 0, 0, []⟩ ⟨"after", some 50, none, 0, 0, []⟩ false rfl rfl
  refine ⟨?_, ?_⟩
  · simpa using h1
  · simpa using h2

/-- C2: when at least one evaluation carries a mate value,
`calculate_evaluation_delta` returns a null `delta_cp`, and `delta_mate` is:
`after.mate` when only the after side has a mate, the sentinel `-999` when
only the before side has a mate, and `after.mate - before.mate` when both
do; the mover's color never affects the result in these cases. -/
theorem calculate_evaluation_delta_mate_spec
    (before_eval after_eval : CloudEval) (is_white_turn : Bool) (bm am : Int) :
    (before_eval.mate = none → after_eval.mate = some am →
      calculate_evaluation_delta before_eval after_eval is_white_turn = (none, some am)) ∧
    (before_eval.mate = some bm → after_eval.mate = none →
      calculate_evaluation_delta before_eval after_eval is_white_turn = (none, some (-999))) ∧
    (before_eval.mate = some bm → after_eval.mate = some am →
      calculate_evaluation_delta before_eval after_eval is_white_turn = (none, some (am - bm))) ∧
    (before_eval.mate.isSome ∨ after_eval.mate.isSome →
      calculate_evaluation_delta before_eval after_eval true =
        calculate_evaluation_delta before_eval after_eval false) := by
  refine ⟨?_, ?_, ?_, ?_⟩
  · intro hb ha; simp [calculate_evaluation_delta, hb, ha]
  · intro hb ha; simp [calculate_evaluation_delta, hb, ha]
  · intro hb ha; simp [calculate_evaluation_delta, hb, ha]
  · intro h
    rcases hb : before_eval.mate with _ | bmv <;> rcases ha : after_eval.mate with _ | amv
    · rcases h with h | h <;> simp [hb, ha] at h
    · simp [calculate_evaluation_delta, hb, ha]
    · simp [calculate_evaluation_delta, hb, ha]
    · simp [calculate_evaluation_delta, hb, ha]

/-- Witness for C2: concrete instances of the three mate cases and of
color independence. -/
theorem calculate_evaluation_delta_mate_spec_witness :
    calculate_evaluation_delta ⟨"b", none, none, 0, 0, []⟩
        ⟨"a", none, some 3, 0, 0, []⟩ true = (none, some 3) ∧
    calculate_evaluation_delta ⟨"b", none, some 2, 0, 0, []⟩
        ⟨"a", none, none, 0, 0, []⟩ true = (none, some (-999)) ∧
    calculate_evaluation_delta ⟨"b", none, some 2, 0, 0, []⟩
        ⟨"a", none, some 5, 0, 0, []⟩ true = (none, some 3) ∧
    calculate_evaluation_delta ⟨"b", none, some 2, 0, 0, []⟩
        ⟨"a", none, some 5, 0, 0, []⟩ true =
      calculate_evaluation_delta ⟨"b", none, some 2, 0, 0, []⟩
        ⟨"a", none, some 5, 0, 0, []⟩ false := by
  refine ⟨?_, ?_, ?_, ?_⟩
  · exact (calculate_evaluation_delta_mate_spec ⟨"b", none, none, 0, 0, []⟩
      ⟨"a", none, some 3, 0, 0, []⟩ true 0 3).1 rfl rfl
  · exact (calculate_evaluation_delta_mate_spec ⟨"b", none, some 2, 0, 0, []⟩
      ⟨"a", none, none, 0, 0, []⟩ true 2 0).2.1 rfl rfl
  · exact (calculate_evaluation_delta_mate_spec ⟨"b", none, some 2, 0, 0, []⟩
      ⟨"a", none, some 5, 0, 0, []⟩ true 2 5).2.2.1 rfl rfl
  · exact (calculate_evaluation_delta_mate_spec ⟨"b", none, some 2, 0, 0, []⟩
      ⟨"a", none, some 5, 0, 0, []⟩ true 2 5).2.2.2 (Or.inl rfl)

/-- C3: `categorize_move` classifies a non-null `delta_mate` by its sign
(negative is a blunder, positive is good, zero is accurate), classifies a
non-null `delta_cp` (with null `delta_mate`) into the five buckets at the
absolute-value boundaries 10, 50, 100, 300, returns "accurate" when both
inputs are null, and the severity of the centipawn bucket is monotone
non-decreasing in the absolute delta. -/
theorem categorize_move_spec :
    (∀ (dc : Option Int) (dm : Int),
      (dm < 0 → categorize_move dc (some dm) = "blunder") ∧
      (0 < dm → categorize_move dc (some dm) = "good") ∧
      categorize_move dc (some 0) = "accurate") ∧
    (∀ d : Int,
      (|d| < 10 → categorize_move (some d) none = "accurate") ∧
      (10 ≤ |d| → |d| < 50 → categorize_move (some d) none = "good") ∧
      (50 ≤ |d| → |d| < 100 → categorize_move (some d) none = "inaccuracy") ∧
      (100 ≤ |d| → |d| < 300 → categorize_move (some d) none = "mistake") ∧
      (300 ≤ |d| → categorize_move (some d) none = "blunder")) ∧
    categorize_move none none = "accurate" ∧
    (∀ d₁ d₂ : Int, |d₁| ≤ |d₂| →
      category_severity (categorize_move (some d₁) none) ≤
        category_severity (categorize_move (some d₂) none)) := by
  refine ⟨?_, ?_, rfl, ?_⟩
  · intro dc dm
    refine ⟨?_, ?_, by simp [categorize_move]⟩
    · intro h; simp [categorize_move, h]
    · intro h; simp [categorize_move, not_lt.mpr (le_of_lt h), h]
  · intro d
    refine ⟨?_, ?_, ?_, ?_, ?_⟩ <;> intros <;> simp only [categorize_move] <;>
      split_ifs <;> first | rfl | omega
  · intro d₁ d₂ h
    simp only [categorize_move]
    split_ifs <;> simp [category_severity] <;> omega

/-- Witness for C3: one concrete instance of each classification case and
of the monotonicity statement. -/
theorem categorize_move_spec_witness :
    categorize_move none (some (-1)) = "blunder" ∧
    categorize_move none (some 2) = "good" ∧
    categorize_move none (some 0) = "accurate" ∧
    categorize_move (some 9) none = "accurate" ∧
    categorize_move (some (-49)) none = "good" ∧
    categorize_move (some 99) none = "inaccuracy" ∧
    categorize_move (some (-299)) none = "mistake" ∧
    categorize_move (some 300) none = "blunder" ∧
    categorize_move none none = "accurate" ∧
    category_severity (categorize_move (some 20) none) ≤
      category_severity (categorize_move (some (-150)) none) := by
  refine ⟨(categorize_move_spec.1 none (-1)).1 (by decide),
    (categorize_move_spec.1 none 2).2.1 (by decide),
    (categorize_move_spec.1 none 0).2.2,
    (categorize_move_spec.2.1 9).1 (by decide),
    (categorize_move_spec.2.1 (-49)).2.1 (by decide) (by decide),
    (categorize_move_spec.2.1 99).2.2.1 (by decide) (by decide),
    (categorize_move_spec.2.1 (-299)).2.2.2.1 (by decide) (by decide),
    (categorize_move_spec.2.1 300).2.2.2.2 (by decide),
    categorize_move_spec.2.2.1,
    categorize_move_spec.2.2.2 20 (-150) (by decide)⟩

/-- C10: `calculate_evaluation_delta` never returns both components null:
when either input carries a mate the returned `delta_mate` is non-null (and
`delta_cp` is null), otherwise the returned `delta_cp` is non-null; in
particular the output is never `(none, none)`, so the categorizer's
both-null "accurate" default is unreachable from the live pipeline. -/
theorem calculate_evaluation_delta_never_both_none
    (before_eval after_eval : CloudEval) (is_white_turn : Bool) :
    ((before_eval.mate.isSome ∨ after_eval.mate.isSome) →
      (calculate_evaluation_delta before_eval after_eval is_white_turn).2 ≠ none ∧
      (calculate_evaluation_delta before_eval after_eval is_white_turn).1 = none) ∧
    ((before_eval.mate = none ∧ after_eval.mate = none) →
      (calculate_evaluation_delta before_eval after_eval is_white_turn).1 ≠ none) ∧
    calculate_evaluation_delta before_eval after_eval is_white_turn ≠ (none, none) := by
  refine ⟨?_, ?_, ?_⟩
  · intro h
    rcases hb : before_eval.mate with _ | bmv <;> rcases ha : after_eval.mate with _ | amv
    · rcases h with h | h <;> simp [hb, ha] at h
    · simp [calculate_evaluation_delta, hb, ha]
    · simp [calculate_evaluation_delta, hb, ha]
    · simp [calculate_evaluation_delta, hb, ha]
  · rintro ⟨hb, ha⟩
    simp [calculate_evaluation_delta, hb, ha]
  · rcases hb : before_eval.mate with _ | bmv <;> rcases ha : after_eval.mate with _ | amv <;>
      simp [calculate_evaluation_delta, hb, ha]

/-- Witness for C10: concrete instances of both branches of the
never-both-null property. -/
theorem calculate_evaluation_delta_never_both_none_witness :
    ((calculate_evaluation_delta ⟨"b", none, some 4, 0, 0, []⟩
        ⟨"a", none, none, 0, 0, []⟩ true).2 ≠ none ∧
      (calculate_evaluation_delta ⟨"b", none, some 4, 0, 0, []⟩
        ⟨"a", none, none, 0, 0, []⟩ true).1 = none) ∧
    (calculate_evaluation_delta ⟨"b", none, none, 0, 0, []⟩
        ⟨"a", none, none, 0, 0, []⟩ false).1 ≠ none ∧
    calculate_evaluation_delta ⟨"b", none, none, 0, 0, []⟩
        ⟨"a", none, none, 0, 0, []⟩ false ≠ (none, none) := by
  refine ⟨(calculate_evaluation_delta_never_both_none ⟨"b", none, some 4, 0, 0, []⟩
      ⟨"a", none, none, 0, 0, []⟩ true).1 (Or.inl rfl),
    (calculate_evaluation_delta_never_both_none ⟨"b", none, none, 0, 0, []⟩
      ⟨"a", none, none, 0, 0, []⟩ false).2.1 ⟨rfl, rfl⟩,
    (calculate_evaluation_delta_never_both_none ⟨"b", none, none, 0, 0, []⟩
      ⟨"a", none, none, 0, 0, []⟩ false).2.2⟩

/-- The FEN precomputation yields one (possibly null) key per input move. -/
theorem compute_fens_length {B : Type} (api : ChessApi B) :
    ∀ (b : B) (ms : List String), (compute_fens api b ms).length = ms.length := by
  intro b ms
  induction ms generalizing b with
  | nil => simp [compute_fens]
  | cons m rest ih =>
    rcases hps : api.parseSan b m with _ | b' <;> simp [compute_fens, hps, ih]

/-- The analysis loop emits at most one record per zipped move. -/
theorem analyze_moves_length {B : Type} (api : ChessApi B)
    (s : String → String → Option Int → Option Int → Option String → String) :
    ∀ (pairs : List (String × CloudEval)) (b : B) (prev : CloudEval) (w : Bool) (p : Nat),
      (analyze_moves api s b pairs prev w p).length ≤ pairs.length := by
  intro pairs
  induction pairs with
  | nil => intro b prev w p; simp [analyze_moves]
  | cons pr rest ih =>
    intro b prev w p
    obtain ⟨ms, ae⟩ := pr
    rcases hps : api.parseSan b ms with _ | b'
    · simpa [analyze_moves, hps] using le_trans (ih b prev w (p + 1)) (Nat.le_succ _)
    · simpa [analyze_moves, hps] using ih b' ae (!w) (p + 1)

/-- Each record emitted by the analysis loop carries the `enumerate` index
of its move as `ply` and is paired with exactly the zipped evaluation at
that index. -/
theorem analyze_moves_mem_spec {B : Type} (api : ChessApi B)
    (s : String → String → Option Int → Option Int → Option String → String) :
    ∀ (pairs : List (String × CloudEval)) (b : B) (prev : CloudEval) (w : Bool) (p : Nat),
      ∀ e ∈ analyze_moves api s b pairs prev w p,
        p ≤ e.ply ∧ e.ply < p + pairs.length ∧
        e.move = (pairs.getD (e.ply - p) ("", placeholder_eval "")).1 ∧
        e.after_eval = (pairs.getD (e.ply - p) ("", placeholder_eval "")).2 := by
  intro pairs
  induction pairs with
  | nil => intro b prev w p e he; simp [analyze_moves] at he
  | cons pr rest ih =>
    intro b prev w p e he
    obtain ⟨ms, ae⟩ := pr
    rcases hps : api.parseSan b ms with _ | b'
    · simp only [analyze_moves, hps] at he
      obtain ⟨h1, h2, h3, h4⟩ := ih b prev w (p + 1) e he
      have hk : e.ply - p = (e.ply - (p + 1)) + 1 := by omega
      refine ⟨by omega, by simpa using by omega, ?_, ?_⟩
      · rw [hk, List.getD_cons_succ]; exact h3
      · rw [hk, List.getD_cons_succ]; exact h4
    · simp only [analyze_moves, hps, List.mem_cons] at he
      rcases he with he | he
      · subst he
        refine ⟨le_refl _, by simp, ?_, ?_⟩ <;> simp
      · obtain ⟨h1, h2, h3, h4⟩ := ih b' ae (!w) (p + 1) e he
        have hk : e.ply - p = (e.ply - (p + 1)) + 1 := by omega
        refine ⟨by omega, by simpa using by omega, ?_, ?_⟩
        · rw [hk, List.getD_cons_succ]; exact h3
        · rw [hk, List.getD_cons_succ]; exact h4

/-- When no move of the zipped list is skipped, the player of each emitted
record is determined by the parity of its ply relative to the starting
index and color. -/
theorem analyze_moves_player_spec {B : Type} (api : ChessApi B)
    (s : String → String → Option Int → Option Int → Option String → String) :
    ∀ (pairs : List (String × CloudEval)) (b : B) (prev : CloudEval) (w : Bool) (p : Nat),
      replay_ok api b (pairs.map Prod.fst) = true →
      ∀ e ∈ analyze_moves api s b pairs prev w p,
        e.player = if (e.ply + p) % 2 = 0 then (if w then "white" else "black")
                   else (if w then "black" else "white") := by
  intro pairs
  induction pairs with
  | nil => intro b prev w p _ e he; simp [analyze_moves] at he
  | cons pr rest ih =>
    intro b prev w p hr e he
    obtain ⟨ms, ae⟩ := pr
    rcases hps : api.parseSan b ms with _ | b'
    · simp [replay_ok, hps] at hr
    · simp only [List.map_cons, replay_ok, hps] at hr
      simp only [analyze_moves, hps, List.mem_cons] at he
      rcases he with he | he
      · subst he
        have h2 : (p + p) % 2 = 0 := by omega
        simp [h2]
      · have hp := ih b' ae (!w) (p + 1) hr e he
        by_cases hpar : (e.ply + p) % 2 = 0
        · have h1 : ¬ (e.ply + (p + 1)) % 2 = 0 := by omega
          rw [if_neg h1] at hp
          rw [if_pos hpar]
          cases w <;> simpa using hp
        · have h1 : (e.ply + (p + 1)) % 2 = 0 := by omega
          rw [if_pos h1] at hp
          rw [if_neg hpar]
          cases w <;> simpa using hp

/-- The write-once result slots of the gather model: after processing the
completion order, a slot holds its own fetch result exactly when its index
completed. -/
theorem run_gather_slot (result : Nat → CloudEval) :
    ∀ (order : List Nat) (acc : Nat → Option CloudEval) (i : Nat),
      (order.foldl (fun a j => Function.update a j (some (result j))) acc) i =
        if i ∈ order then some (result i) else acc i := by
  intro order
  induction order with
  | nil => intro acc i; simp
  | cons j rest ih =>
    intro acc i
    simp only [List.foldl_cons]
    rw [ih]
    by_cases hij : i = j
    · subst hij
      by_cases hr : i ∈ rest <;> simp [hr, Function.update_apply]
    · by_cases hr : i ∈ rest <;> simp [hr, Function.update_apply, hij]

/-- C5 counterexample: on the two-move input `["Zz9", "e4"]` (the first
move fails to replay and is skipped, the second replays from the unchanged
board), the report contains exactly one Move Record, with even ply `2` and
player `"white"` — refuting the claim that every even-ply record has
player black even when moves are skipped. -/
theorem analyze_game_parity_counterexample :
    ((analyze_game skip_api failing_fetch failing_fetch trivial_summary skip_game).evaluations.map
        (fun e => (e.ply, e.player))) = [(2, "white")] ∧
    ¬ (∀ e ∈ (analyze_game skip_api failing_fetch failing_fetch trivial_summary
          skip_game).evaluations,
        (e.ply % 2 = 1 → e.player = "white") ∧ (e.ply % 2 = 0 → e.player = "black")) := by
  decide

/-- C5 (amended): every Move Record's ply is the 1-based index of its move
in the input move list, and provided every input move replays successfully
(no move is skipped), White plays the odd indices: each record with odd
ply has player white and each record with even ply has player black.
(When a move is skipped the ply index still advances but the color does
not, so the parity correspondence can break, as the counterexample
shows.) -/
theorem analyze_game_parity_spec {B : Type} (api : ChessApi B)
    (fetch1 fetch2 : String → FetchOutcome)
    (s : String → String → Option Int → Option Int → Option String → String)
    (g : GameData) (h : replay_ok api api.initial g.moves = true) :
    ∀ e ∈ (analyze_game api fetch1 fetch2 s g).evaluations,
      (e.ply % 2 = 1 → e.player = "white") ∧ (e.ply % 2 = 0 → e.player = "black") := by
  intro e he
  have hlen : g.moves.length ≤ (after_evals_of api fetch1 fetch2 g.moves).length := by
    simp [after_evals_of, compute_fens_length]
  have hfst : (g.moves.zip (after_evals_of api fetch1 fetch2 g.moves)).map Prod.fst = g.moves :=
    List.map_fst_zip _ _ hlen
  have hr : replay_ok api api.initial
      ((g.moves.zip (after_evals_of api fetch1 fetch2 g.moves)).map Prod.fst) = true := by
    rw [hfst]; exact h
  have he' : e ∈ analyze_moves api s api.initial
      (g.moves.zip (after_evals_of api fetch1 fetch2 g.moves))
      (initial_eval_of api fetch1) true 1 := he
  have hp := analyze_moves_player_spec api s _ api.initial (initial_eval_of api fetch1)
    true 1 hr e he'
  constructor
  · intro hodd
    have h2 : (e.ply + 1) % 2 = 0 := by omega
    rw [hp, if_pos h2]; rfl
  · intro heven
    have h2 : ¬ (e.ply + 1) % 2 = 0 := by omega
    rw [hp, if_neg h2]; rfl

/-- Witness for C5 (amended): on the fully replayable game `["e4", "e5"]`
the second record has even ply and player black. -/
theorem analyze_game_parity_spec_witness :
    ((analyze_game ok_api failing_fetch failing_fetch trivial_summary
        ok_game).evaluations.getD 1 default).player = "black" := by
  have h := analyze_game_parity_spec ok_api failing_fetch failing_fetch trivial_summary
    ok_game (by decide)
  have hmem : ((analyze_game ok_api failing_fetch failing_fetch trivial_summary
        ok_game).evaluations.getD 1 default) ∈
      (analyze_game ok_api failing_fetch failing_fetch trivial_summary
        ok_game).evaluations := by decide
  exact (h _ hmem).2 (by decide)

/-- C8: the gather of the per-move evaluations is order-stable: for every
completion order in which all `N` fetches finish, reading the result slots
back in index order yields exactly the move-ordered evaluation list that
`analyze_game` consumes; consequently every Move Record with ply `p` is
paired with move `p` of the game and with the evaluation of the position
after move `p`. -/
theorem analyze_game_gather_order {B : Type} (api : ChessApi B)
    (fetch1 fetch2 : String → FetchOutcome)
    (s : String → String → Option Int → Option Int → Option String → String)
    (g : GameData) (order : List Nat)
    (h : ∀ i < g.moves.length, i ∈ order) :
    run_gather g.moves.length
        (fun i => fetch_with_semaphore fetch1 fetch2
          ((compute_fens api api.initial g.moves).getD i none)) order =
      after_evals_of api fetch1 fetch2 g.moves ∧
    ∀ e ∈ (analyze_game api fetch1 fetch2 s g).evaluations,
      1 ≤ e.ply ∧ e.ply ≤ g.moves.length ∧
      e.move = g.moves.getD (e.ply - 1) "" ∧
      e.after_eval = (after_evals_of api fetch1 fetch2 g.moves).getD
        (e.ply - 1) (placeholder_eval "") := by
  have hfens : (compute_fens api api.initial g.moves).length = g.moves.length :=
    compute_fens_length api api.initial g.moves
  have hlen : (after_evals_of api fetch1 fetch2 g.moves).length = g.moves.length := by
    simp [after_evals_of, hfens]
  constructor
  · unfold run_gather
    have hstep : (List.range g.moves.length).map
        (fun i => ((order.foldl (fun a j => Function.update a j
            (some (fetch_with_semaphore fetch1 fetch2
              ((compute_fens api api.initial g.moves).getD j none)))) (fun _ => none)) i).getD
          (placeholder_eval "")) =
        (List.range g.moves.length).map
          (fun i => fetch_with_semaphore fetch1 fetch2
            ((compute_fens api api.initial g.moves).getD i none)) := by
      refine List.map_congr_left ?_
      intro i hi
      rw [run_gather_slot]
      rw [if_pos (h i (List.mem_range.mp hi))]
      rfl
    refine hstep.trans ?_
    refine List.ext_getElem (by simpa [after_evals_of] using hfens.symm) ?_
    intro i h1 h2
    simp only [List.getElem_map, List.getElem_range, after_evals_of]
    have hi : i < (compute_fens api api.initial g.moves).length := by
      simpa [after_evals_of] using h2
    rw [List.getD_eq_getElem?_getD, List.getElem?_eq_getElem hi, Option.getD_some]
  · intro e he
    have he' : e ∈ analyze_moves api s api.initial
        (g.moves.zip (after_evals_of api fetch1 fetch2 g.moves))
        (initial_eval_of api fetch1) true 1 := he
    obtain ⟨h1, h2, h3, h4⟩ := analyze_moves_mem_spec api s _ api.initial _ true 1 e he'
    have hzlen : (g.moves.zip (after_evals_of api fetch1 fetch2 g.moves)).length =
        g.moves.length := by
      simp [List.length_zip, hlen]
    have hk : e.ply - 1 < (g.moves.zip (after_evals_of api fetch1 fetch2 g.moves)).length := by
      omega
    have hkm : e.ply - 1 < g.moves.length := by omega
    have hka : e.ply - 1 < (after_evals_of api fetch1 fetch2 g.moves).length := by omega
    have hzip : (g.moves.zip (after_evals_of api fetch1 fetch2 g.moves)).getD
        (e.ply - 1) ("", placeholder_eval "") =
        (g.moves.getD (e.ply - 1) "",
         (after_evals_of api fetch1 fetch2 g.moves).getD (e.ply - 1) (placeholder_eval "")) := by
      rw [List.getD_eq_getElem?_getD, List.getElem?_eq_getElem hk, Option.getD_some,
        List.getElem_zip,
        List.getD_eq_getElem?_getD g.moves, List.getElem?_eq_getElem hkm, Option.getD_some,
        List.getD_eq_getElem?_getD (after_evals_of api fetch1 fetch2 g.moves),
        List.getElem?_eq_getElem hka, Option.getD_some]
    refine ⟨h1, by omega, ?_, ?_⟩
    · rw [h3, hzip]
    · rw [h4, hzip]

/-- Witness for C8: on a concrete two-move game with the reversed
completion order `[1, 0]`, the gathered slots read back in index order
equal the move-ordered evaluation list. -/
theorem analyze_game_gather_order_witness :
    run_gather ok_game.moves.length
        (fun i => fetch_with_semaphore failing_fetch failing_fetch
          ((compute_fens ok_api ok_api.initial ok_game.moves).getD i none)) [1, 0] =
      after_evals_of ok_api failing_fetch failing_fetch ok_game.moves :=
  (analyze_game_gather_order ok_api failing_fetch failing_fetch trivial_summary
    ok_game [1, 0] (by decide)).1

/-- C9: `analyze_game` absorbs every per-position and per-move fetch
failure: a failed initial-position fetch is replaced by the zero
placeholder; a move without a position key, a move whose fetch fails
outright, and a move whose fetch is rate-limited and whose retry also
fails all receive placeholder evaluations; a run in which every fetch
fails produces exactly the report a run with explicit placeholder
evaluations produces; and the report always exists, with at most one
record per input move. -/
theorem analyze_game_absorbs_failures {B : Type} (api : ChessApi B)
    (fetch1 fetch2 : String → FetchOutcome)
    (s : String → String → Option Int → Option Int → Option String → String)
    (g : GameData) (flag : Bool) (f : String) :
    (fetch1 (api.fen api.initial) = .err flag →
      initial_eval_of api fetch1 = placeholder_eval (api.fen api.initial)) ∧
    fetch_with_semaphore fetch1 fetch2 none = placeholder_eval "" ∧
    (fetch1 f = .err false → fetch_with_semaphore fetch1 fetch2 (some f) = placeholder_eval f) ∧
    (fetch1 f = .err true → fetch2 f = .err flag →
      fetch_with_semaphore fetch1 fetch2 (some f) = placeholder_eval f) ∧
    analyze_game api (fun _ => .err flag) (fun _ => .err flag) s g =
      analyze_game api (fun fen => .ok (placeholder_eval fen))
        (fun fen => .ok (placeholder_eval fen)) s g ∧
    (analyze_game api fetch1 fetch2 s g).evaluations.length ≤ g.moves.length := by
  refine ⟨?_, rfl, ?_, ?_, ?_, ?_⟩
  · intro hf; simp [initial_eval_of, hf]
  · intro hf; simp [fetch_with_semaphore, hf]
  · intro hf1 hf2; simp [fetch_with_semaphore, hf1, hf2]
  · have hmap : ∀ o : Option String,
        fetch_with_semaphore (fun _ => .err flag) (fun _ => .err flag) o =
        fetch_with_semaphore (fun fen => .ok (placeholder_eval fen))
          (fun fen => .ok (placeholder_eval fen)) o := by
      intro o
      cases o with
      | none => rfl
      | some f0 => cases flag <;> rfl
    have hae : after_evals_of api (fun _ => .err flag) (fun _ => .err flag) g.moves =
        after_evals_of api (fun fen => .ok (placeholder_eval fen))
          (fun fen => .ok (placeholder_eval fen)) g.moves := by
      unfold after_evals_of
      exact List.map_congr_left (fun a _ => hmap a)
    have hinit : initial_eval_of api (fun _ => .err flag) =
        initial_eval_of api (fun fen => .ok (placeholder_eval fen)) := by
      simp [initial_eval_of]
    simp only [analyze_game, hae, hinit]
  · have hl := analyze_moves_length api s
      (g.moves.zip (after_evals_of api fetch1 fetch2 g.moves)) api.initial
      (initial_eval_of api fetch1) true 1
    have hz : (g.moves.zip (after_evals_of api fetch1 fetch2 g.moves)).length ≤
        g.moves.length := by
      simp [List.length_zip]
    exact le_trans hl hz

/-- Witness for C9: concrete all-failing fetches are replaced by
placeholders and the report of the two-move game stays within bounds. -/
theorem analyze_game_absorbs_failures_witness :
    initial_eval_of ok_api failing_fetch = placeholder_eval "f" ∧
    fetch_with_semaphore failing_fetch failing_fetch none = placeholder_eval "" ∧
    fetch_with_semaphore failing_fetch failing_fetch (some "x") = placeholder_eval "x" ∧
    (analyze_game ok_api failing_fetch failing_fetch trivial_summary
      ok_game).evaluations.length ≤ ok_game.moves.length := by
  have h := analyze_game_absorbs_failures ok_api failing_fetch failing_fetch trivial_summary
    ok_game false "x"
  exact ⟨h.1 rfl, h.2.1, h.2.2.1 rfl, h.2.2.2.2.2⟩

/-- A digit character is not Python whitespace. -/
theorem not_ws_of_digit (c : Char) (h : isDigitChar c = true) : isPyWs c = false := by
  by_contra hne
  have hw : isPyWs c = true := by revert hne; cases isPyWs c <;> simp
  simp only [isPyWs, Bool.or_eq_true, beq_iff_eq] at hw
  rcases hw with ((((rfl | rfl) | rfl) | rfl) | rfl) | rfl <;> exact absurd h (by decide)

/-- A digit character differs from every non-digit character. -/
theorem digit_ne (c d : Char) (h : isDigitChar c = true) (hd : isDigitChar d = false) :
    c ≠ d := by
  intro he
  rw [he] at h
  rw [h] at hd
  cases hd

/-- Matching a literal against itself followed by a remainder succeeds. -/
theorem matchLiteral_append : ∀ (ls cs : List Char), matchLiteral ls (ls ++ cs) = some cs := by
  intro ls
  induction ls with
  | nil => intro cs; rfl
  | cons l ls ih => intro cs; simp [matchLiteral, ih]

/-- The literal `[%eval` cannot match at a position not starting with `[`. -/
theorem matchLiteral_evalLit_ne (c : Char) (cs : List Char) (h : c ≠ '[') :
    matchLiteral evalLit (c :: cs) = none := by
  simp [evalLit, matchLiteral, h]

/-- The `\[%eval\s+<shape>\]` search fails on text containing no `[`. -/
theorem searchEval_no_bracket (shape : List Char → Option (List Char × List Char)) :
    ∀ cs : List Char, (∀ c ∈ cs, c ≠ '[') → searchEval shape cs = none := by
  intro cs
  induction cs with
  | nil => intro _; rfl
  | cons c cs ih =>
    intro h
    have hc : c ≠ '[' := h c (List.mem_cons_self c cs)
    simp [searchEval, tryMatchAt, matchLiteral_evalLit_ne c cs hc,
      ih (fun x hx => h x (List.mem_cons_of_mem c hx))]

/-- The `\[%eval\s+([^\]]+)\]` search fails on text containing no `[`. -/
theorem searchAnyEval_no_bracket :
    ∀ cs : List Char, (∀ c ∈ cs, c ≠ '[') → searchAnyEval cs = none := by
  intro cs
  induction cs with
  | nil => intro _; rfl
  | cons c cs ih =>
    intro h
    have hc : c ≠ '[' := h c (List.mem_cons_self c cs)
    simp [searchAnyEval, tryMatchAnyAt, matchLiteral_evalLit_ne c cs hc,
      ih (fun x hx => h x (List.mem_cons_of_mem c hx))]

/-- `takeWhile` passes over a block that wholly satisfies the test. -/
theorem takeWhile_append_all {p : Char → Bool} :
    ∀ (ds l : List Char), ds.all p = true → (ds ++ l).takeWhile p = ds ++ l.takeWhile p := by
  intro ds
  induction ds with
  | nil => intro l _; rfl
  | cons d ds ih =>
    intro l h
    simp only [List.all_cons, Bool.and_eq_true] at h
    simp [List.takeWhile_cons, h.1, ih l h.2]

/-- `takeWhile` keeps a list that wholly satisfies the test. -/
theorem takeWhile_all {p : Char → Bool} (l : List Char) (h : l.all p = true) :
    l.takeWhile p = l := by
  have := takeWhile_append_all l [] h
  simpa using this

/-- `takeWhile` stops at a leading element failing the test. -/
theorem takeWhile_head_neg {p : Char → Bool} (c : Char) (l : List Char) (hc : p c = false) :
    (c :: l).takeWhile p = [] := by
  simp [List.takeWhile_cons, hc]

/-- `dropWhile` is the identity on a list none of whose elements pass. -/
theorem dropWhile_all_neg {p : Char → Bool} :
    ∀ l : List Char, (∀ c ∈ l, p c = false) → l.dropWhile p = l := by
  intro l
  induction l with
  | nil => intro _; rfl
  | cons c cs _ =>
    intro h
    simp [List.dropWhile_cons, h c (List.mem_cons_self c cs)]

/-- `str.strip()` is the identity on whitespace-free text. -/
theorem pyStrip_no_ws (v : List Char) (h : ∀ c ∈ v, isPyWs c = false) : pyStrip v = v := by
  unfold pyStrip
  rw [dropWhile_all_neg v h, dropWhile_all_neg v.reverse (fun c hc => h c (List.mem_reverse.mp hc)),
    List.reverse_reverse]

/-- Unfolding equation of `searchEval` at a nonempty input. -/
theorem searchEval_cons (shape : List Char → Option (List Char × List Char))
    (c : Char) (cs : List Char) :
    searchEval shape (c :: cs) =
      match tryMatchAt shape (c :: cs) with
      | some g => some g
      | none => searchEval shape cs := rfl

/-- Unfolding equation of `searchAnyEval` at a nonempty input. -/
theorem searchAnyEval_cons (c : Char) (cs : List Char) :
    searchAnyEval (c :: cs) =
      match tryMatchAnyAt (c :: cs) with
      | some g => some g
      | none => searchAnyEval cs := rfl

/-- Greedy whitespace munch at the single space of an annotation whose
value starts with a non-whitespace character. -/
theorem takeWhile_ws_ann (c0 : Char) (t : List Char) (hc0 : isPyWs c0 = false) :
    List.takeWhile isPyWs (' ' :: c0 :: t) = [' '] := by
  have hsp : isPyWs ' ' = true := by decide
  simp [List.takeWhile_cons, hc0, hsp]

/-- A `\[%eval\s+<shape>\]` attempt at the head of a single annotation
reduces to the shape applied to the value-and-rest. -/
theorem tryMatchAt_ann (shape : List Char → Option (List Char × List Char))
    (c0 : Char) (t : List Char) (hc0 : isPyWs c0 = false) :
    tryMatchAt shape (evalLit ++ ' ' :: c0 :: t) =
      match shape (c0 :: t) with
      | none => none
      | some (g, rem) =>
        match rem with
        | ']' :: _ => some g
        | _ => none := by
  unfold tryMatchAt
  rw [matchLiteral_append]
  simp only [takeWhile_ws_ann c0 t hc0, List.isEmpty_cons, Bool.false_eq_true, if_false,
    List.length_singleton, List.drop_succ_cons, List.drop_zero]

/-- Successful shape match at the single annotation of a comment of the
form `[%eval <value>]`: the search returns the shape's group. -/
theorem searchEval_ann_some (shape : List Char → Option (List Char × List Char))
    (c0 : Char) (v' g : List Char) (hc0 : isPyWs c0 = false)
    (hshape : shape (c0 :: (v' ++ [']'])) = some (g, [']'])) :
    searchEval shape (evalLit ++ ' ' :: c0 :: (v' ++ [']'])) = some g := by
  have harg : evalLit ++ ' ' :: c0 :: (v' ++ [']']) =
      '[' :: ('%' :: 'e' :: 'v' :: 'a' :: 'l' :: ' ' :: c0 :: (v' ++ [']'])) := rfl
  have htry := tryMatchAt_ann shape c0 (v' ++ [']']) hc0
  rw [hshape] at htry
  rw [harg, searchEval_cons]
  rw [harg] at htry
  rw [htry]
  rfl

/-- Failing shape match on a comment of the form `[%eval <value>]` whose
value contains no `[`: the search fails entirely. -/
theorem searchEval_ann_none (shape : List Char → Option (List Char × List Char))
    (c0 : Char) (v' : List Char) (hc0 : isPyWs c0 = false) (hnb : ∀ c ∈ c0 :: v', c ≠ '[')
    (hshape : shape (c0 :: (v' ++ [']'])) = none) :
    searchEval shape (evalLit ++ ' ' :: c0 :: (v' ++ [']'])) = none := by
  have harg : evalLit ++ ' ' :: c0 :: (v' ++ [']']) =
      '[' :: ('%' :: 'e' :: 'v' :: 'a' :: 'l' :: ' ' :: c0 :: (v' ++ [']'])) := rfl
  have htry := tryMatchAt_ann shape c0 (v' ++ [']']) hc0
  rw [hshape] at htry
  rw [harg] at htry
  have hrest : searchEval shape ('%' :: 'e' :: 'v' :: 'a' :: 'l' :: ' ' ::
      c0 :: (v' ++ [']'])) = none := by
    refine searchEval_no_bracket shape _ ?_
    intro c hc
    simp only [List.mem_cons, List.mem_append, List.mem_singleton, List.not_mem_nil,
      or_false] at hc
    rcases hc with rfl | rfl | rfl | rfl | rfl | rfl | rfl | hc | rfl
    · decide
    · decide
    · decide
    · decide
    · decide
    · decide
    · exact hnb _ (List.mem_cons_self _ _)
    · exact hnb c (List.mem_cons_of_mem c0 hc)
    · decide
  rw [harg, searchEval_cons, htry]
  exact hrest

/-- A `\[%eval\s+([^\]]+)\]` attempt at the head of a single annotation
whose value is nonempty, `]`-free and not starting with whitespace
returns the value itself as the group. -/
theorem tryMatchAnyAt_ann (c0 : Char) (v' : List Char) (hc0 : isPyWs c0 = false)
    (hnb : ∀ c ∈ c0 :: v', c ≠ ']') :
    tryMatchAnyAt (evalLit ++ ' ' :: c0 :: (v' ++ [']'])) = some (c0 :: v') := by
  have htot : List.takeWhile (fun x => x != ']') (' ' :: c0 :: (v' ++ [']'])) =
      ' ' :: c0 :: v' := by
    have h1 : (' ' :: c0 :: v').all (fun x => x != ']') = true := by
      simp only [List.all_cons, List.all_eq_true, bne_iff_ne, ne_eq, Bool.and_eq_true]
      refine ⟨by decide, hnb c0 (List.mem_cons_self c0 v'), ?_⟩
      exact fun c hc => hnb c (List.mem_cons_of_mem c0 hc)
    have h2 := takeWhile_append_all (p := fun x => x != ']') (' ' :: c0 :: v') [']'] h1
    simp only [List.cons_append] at h2
    rw [h2]
    norm_num
  have hdrop : (' ' :: c0 :: (v' ++ [']'])).drop (' ' :: c0 :: v').length = [']'] := by
    have he : ' ' :: c0 :: (v' ++ [']']) = (' ' :: c0 :: v') ++ [']'] := by simp
    rw [he, List.drop_left]
  have hlen : ¬ (List.takeWhile isPyWs (' ' :: c0 :: (v' ++ [']']))).length <
      (' ' :: c0 :: v').length → False := by
    intro hn
    rw [takeWhile_ws_ann c0 (v' ++ [']']) hc0] at hn
    simp at hn
  unfold tryMatchAnyAt
  rw [matchLiteral_append]
  simp only [htot, takeWhile_ws_ann c0 (v' ++ [']']) hc0]
  simp only [hdrop]
  have hsp : isPyWs ' ' = true := by decide
  simp only [hsp, if_true]
  have hlt : (List.length [' ']) < (' ' :: c0 :: v').length := by simp
  simp only [List.length_singleton] at hlt ⊢
  rw [if_pos hlt]
  rfl

/-- The `\[%eval\s+([^\]]+)\]` search on a single annotation whose value
is nonempty, `]`-free and not starting with whitespace returns the value
itself as the group. -/
theorem searchAnyEval_ann (c0 : Char) (v' : List Char) (hc0 : isPyWs c0 = false)
    (hnb : ∀ c ∈ c0 :: v', c ≠ ']') :
    searchAnyEval (evalLit ++ ' ' :: c0 :: (v' ++ [']'])) = some (c0 :: v') := by
  have harg : evalLit ++ ' ' :: c0 :: (v' ++ [']']) =
      '[' :: ('%' :: 'e' :: 'v' :: 'a' :: 'l' :: ' ' :: c0 :: (v' ++ [']'])) := rfl
  have htry := tryMatchAnyAt_ann c0 v' hc0 hnb
  rw [harg] at htry
  rw [harg, searchAnyEval_cons, htry]

/-- `signedDigits` rejects an input starting with neither the sign nor a
digit. -/
theorem signedDigits_none (s c : Char) (t : List Char) (hc : c ≠ s)
    (hcd : isDigitChar c = false) : signedDigits s (c :: t) = none := by
  simp only [signedDigits]
  simp only [if_neg hc]
  rw [takeWhile_head_neg (p := isDigitChar) c t hcd]
  rfl

/-- `signedDigits` on an unsigned digit run followed by a digit-free
remainder takes exactly the run. -/
theorem signedDigits_unsigned (s : Char) (hs : isDigitChar s = false)
    (ds rest : List Char) (hne : ds ≠ []) (hall : ds.all isDigitChar = true)
    (hrd : rest.takeWhile isDigitChar = []) :
    signedDigits s (ds ++ rest) = some (ds, rest) := by
  obtain ⟨d, ds', rfl⟩ := List.exists_cons_of_ne_nil hne
  have hd : isDigitChar d = true := by
    simp only [List.all_cons, Bool.and_eq_true] at hall
    exact hall.1
  have htw := takeWhile_append_all (p := isDigitChar) (d :: ds') rest hall
  rw [hrd, List.append_nil] at htw
  simp only [List.cons_append] at htw
  have hdr := List.drop_left (d :: ds') rest
  simp only [List.cons_append] at hdr
  simp only [List.cons_append, signedDigits]
  simp only [if_neg (digit_ne d s hd hs)]
  rw [htw]
  simp only [List.isEmpty_cons, Bool.false_eq_true, if_false]
  rw [hdr]
  simp

/-- `signedDigits` on a signed digit run followed by a digit-free
remainder takes the sign and the run. -/
theorem signedDigits_signed (s : Char) (ds rest : List Char) (hne : ds ≠ [])
    (hall : ds.all isDigitChar = true) (hrd : rest.takeWhile isDigitChar = []) :
    signedDigits s (s :: (ds ++ rest)) = some (s :: ds, rest) := by
  have htw := takeWhile_append_all (p := isDigitChar) ds rest hall
  rw [hrd, List.append_nil] at htw
  have hie : ds.isEmpty = false := by
    obtain ⟨d, ds', rfl⟩ := List.exists_cons_of_ne_nil hne
    rfl
  simp only [signedDigits, if_true, eq_self_iff_true]
  rw [htw]
  simp only [hie, Bool.false_eq_true, if_false, List.drop_left]
  rfl

/-- The `cp=` pattern rejects a value not starting with `c`. -/
theorem shapeCpEq_none (c0 : Char) (t : List Char) (hc : c0 ≠ 'c') :
    shapeCpEq (c0 :: t) = none := by
  have hlit : matchLiteral ['c', 'p', '='] (c0 :: t) = none := by
    simp [matchLiteral, hc]
  simp only [shapeCpEq, hlit]

/-- The decimal pattern rejects a value starting with neither `-` nor a
digit. -/
theorem shapeDecimal_none (c : Char) (t : List Char) (hc : c ≠ '-')
    (hcd : isDigitChar c = false) : shapeDecimal (c :: t) = none := by
  simp only [shapeDecimal]
  simp only [if_neg hc]
  rw [takeWhile_head_neg (p := isDigitChar) c t hcd]
  rfl

/-- The decimal pattern on an optionally negated digit run followed by a
dot and a fractional run captures the whole value. -/
theorem shapeDecimal_dot (neg : Bool) (intDs fracDs : List Char) (hne : intDs ≠ [])
    (hint : intDs.all isDigitChar = true) (hfrac : fracDs.all isDigitChar = true) :
    shapeDecimal (((if neg then ['-'] else []) ++ intDs ++ '.' :: fracDs) ++ [']']) =
      some ((if neg then ['-'] else []) ++ intDs ++ '.' :: fracDs, [']']) := by
  obtain ⟨d, ds', rfl⟩ := List.exists_cons_of_ne_nil hne
  have hd : isDigitChar d = true := by
    simp only [List.all_cons, Bool.and_eq_true] at hint
    exact hint.1
  have htw := takeWhile_append_all (p := isDigitChar) (d :: ds') ('.' :: (fracDs ++ [']'])) hint
  rw [takeWhile_head_neg (p := isDigitChar) '.' _ (by decide), List.append_nil] at htw
  simp only [List.cons_append] at htw
  have hdr := List.drop_left (d :: ds') ('.' :: (fracDs ++ [']']))
  simp only [List.cons_append] at hdr
  have hfw := takeWhile_append_all (p := isDigitChar) fracDs [']'] hfrac
  rw [takeWhile_head_neg (p := isDigitChar) ']' [] (by decide), List.append_nil] at hfw
  have hfd := List.drop_left fracDs [']']
  cases neg with
  | false =>
    simp only [Bool.false_eq_true, if_false, List.nil_append, List.cons_append,
      List.append_assoc, List.singleton_append]
    simp only [shapeDecimal]
    simp only [if_neg (digit_ne d '-' hd (by decide))]
    rw [htw]
    simp only [List.isEmpty_cons, Bool.false_eq_true, if_false]
    rw [hdr]
    simp only [hfw, hfd]
    simp
  | true =>
    simp only [if_true, List.nil_append, List.cons_append, List.append_assoc,
      List.singleton_append]
    simp only [shapeDecimal, if_true, eq_self_iff_true]
    rw [htw]
    simp only [List.isEmpty_cons, Bool.false_eq_true, if_false]
    rw [hdr]
    simp only [hfw, hfd]
    simp

/-- The decimal pattern on an optionally negated bare digit run captures
the run (no dot consumed). -/
theorem shapeDecimal_int (neg : Bool) (ds : List Char) (hne : ds ≠ [])
    (hall : ds.all isDigitChar = true) :
    shapeDecimal (((if neg then ['-'] else []) ++ ds) ++ [']']) =
      some ((if neg then ['-'] else []) ++ ds, [']']) := by
  obtain ⟨d, ds', rfl⟩ := List.exists_cons_of_ne_nil hne
  have hd : isDigitChar d = true := by
    simp only [List.all_cons, Bool.and_eq_true] at hall
    exact hall.1
  have htw := takeWhile_append_all (p := isDigitChar) (d :: ds') [']'] hall
  rw [takeWhile_head_neg (p := isDigitChar) ']' [] (by decide), List.append_nil] at htw
  simp only [List.cons_append] at htw
  have hdr := List.drop_left (d :: ds') [']']
  simp only [List.cons_append] at hdr
  cases neg with
  | false =>
    simp only [Bool.false_eq_true, if_false, List.nil_append, List.cons_append]
    simp only [shapeDecimal]
    simp only [if_neg (digit_ne d '-' hd (by decide))]
    rw [htw]
    simp only [List.isEmpty_cons, Bool.false_eq_true, if_false]
    rw [hdr]
    rfl
  | true =>
    simp only [if_true, List.nil_append, List.cons_append]
    simp only [shapeDecimal, if_true, eq_self_iff_true]
    rw [htw]
    simp only [List.isEmpty_cons, Bool.false_eq_true, if_false]
    rw [hdr]
    rfl

/-- `int()` of an unsigned digit run. -/
theorem pyIntVal_digits (ds : List Char) (hne : ds ≠ [])
    (hall : ds.all isDigitChar = true) : pyIntVal ds = (digitsToNat ds : Int) := by
  obtain ⟨d, ds', rfl⟩ := List.exists_cons_of_ne_nil hne
  have hd : isDigitChar d = true := by
    simp only [List.all_cons, Bool.and_eq_true] at hall
    exact hall.1
  simp only [pyIntVal]
  rw [if_neg (digit_ne d '-' hd (by decide)), if_neg (digit_ne d '+' hd (by decide))]

/-- `int()`-shape of an optionally signed digit run. -/
theorem pyIntShape_true (neg plus : Bool) (ds : List Char) (hne : ds ≠ [])
    (hall : ds.all isDigitChar = true) :
    pyIntShape ((if neg then ['-'] else if plus then ['+'] else []) ++ ds) = true := by
  have hie : ds.isEmpty = false := by
    obtain ⟨d, ds', rfl⟩ := List.exists_cons_of_ne_nil hne
    rfl
  cases neg with
  | true =>
    simp only [if_true, List.singleton_append]
    simp only [pyIntShape]
    simp [hie, hall]
  | false =>
    cases plus with
    | true =>
      simp only [if_true, Bool.false_eq_true, if_false, List.singleton_append]
      simp only [pyIntShape]
      simp [hie, hall]
    | false =>
      simp only [Bool.false_eq_true, if_false, List.nil_append]
      obtain ⟨d, ds', rfl⟩ := List.exists_cons_of_ne_nil hne
      have hd : isDigitChar d = true := by
        simp only [List.all_cons, Bool.and_eq_true] at hall
        exact hall.1
      simp only [pyIntShape]
      rw [if_neg ?_]
      · exact hall
      · rintro (rfl | rfl) <;> exact absurd hd (by decide)

/-- `List.contains` agrees with membership (specialized to `Char`). -/
theorem contains_of_mem (l : List Char) (a : Char) (h : a ∈ l) : l.contains a = true := by
  simpa using h

/-- `List.contains` is false outside the list (specialized to `Char`). -/
theorem contains_eq_false (l : List Char) (a : Char) (h : a ∉ l) : l.contains a = false := by
  simpa using h

/-- All characters of an optionally signed digit run differ from a fixed
non-digit, non-sign character. -/
theorem signed_digits_ne (neg plus : Bool) (ds : List Char)
    (hall : ds.all isDigitChar = true) (x : Char) (hx : isDigitChar x = false)
    (hxm : x ≠ '-') (hxp : x ≠ '+') :
    ∀ c ∈ (if neg then ['-'] else if plus then ['+'] else []) ++ ds, c ≠ x := by
  intro c hc
  rcases List.mem_append.mp hc with hs | hd
  · cases neg with
    | true =>
      simp only [if_true, List.mem_singleton] at hs
      subst hs
      exact fun he => hxm he.symm
    | false =>
      cases plus with
      | true =>
        simp only [if_true, Bool.false_eq_true, if_false, List.mem_singleton] at hs
        subst hs
        exact fun he => hxp he.symm
      | false =>
        simp at hs
  · have hcd : isDigitChar c = true := by
      have := List.all_eq_true.mp hall
      simpa using this c hd
    exact digit_ne c x hcd hx

/-- The mate branch of `parse_eval_from_comment`: a `#` value yields the
signed integer after the `#` as mate, with null centipawns (patterns 1
and 2 fail on the `#`, pattern 3 or — for an explicit `+` — pattern 4
matches). -/
theorem parse_eval_from_comment_mate (neg plus : Bool) (ds : List Char)
    (hne : ds ≠ []) (hall : ds.all isDigitChar = true) :
    parse_eval_from_comment (evalLit ++ ' ' :: '#' ::
        (((if neg then ['-'] else if plus then ['+'] else []) ++ ds) ++ [']'])) =
      some { cp := none,
             mate := some ((if neg then (-1 : Int) else 1) * (digitsToNat ds : Int)) } := by
  have hnb : ∀ c ∈ '#' :: ((if neg then ['-'] else if plus then ['+'] else []) ++ ds),
      c ≠ '[' := by
    intro c hc
    rcases List.mem_cons.mp hc with rfl | hc2
    · decide
    · exact signed_digits_ne neg plus ds hall '[' (by decide) (by decide) (by decide) c hc2
  have hcp : shapeCpEq ('#' ::
      (((if neg then ['-'] else if plus then ['+'] else []) ++ ds) ++ [']'])) = none :=
    shapeCpEq_none '#' _ (by decide)
  have hdec : shapeDecimal ('#' ::
      (((if neg then ['-'] else if plus then ['+'] else []) ++ ds) ++ [']'])) = none :=
    shapeDecimal_none '#' _ (by decide) (by decide)
  have h1 := searchEval_ann_none shapeCpEq '#' _ (by decide) hnb hcp
  have h2 := searchEval_ann_none shapeDecimal '#' _ (by decide) hnb hdec
  have hie : (evalLit ++ ' ' :: '#' ::
      (((if neg then ['-'] else if plus then ['+'] else []) ++ ds) ++ [']'])).isEmpty =
      false := rfl
  cases neg with
  | true =>
    simp only [if_true, List.singleton_append] at h1 h2 ⊢
    have hms : shapeMateSigned ('#' :: (('-' :: ds) ++ [']'])) = some ('-' :: ds, [']']) := by
      have : shapeMateSigned ('#' :: (('-' :: ds) ++ [']'])) =
          signedDigits '-' (('-' :: ds) ++ [']']) := rfl
      rw [this, List.cons_append]
      exact signedDigits_signed '-' ds [']'] hne hall (by decide)
    have h3 := searchEval_ann_some shapeMateSigned '#' (('-' :: ds)) ('-' :: ds)
      (by decide) (by simpa using hms)
    simp only [parse_eval_from_comment, hie, Bool.false_eq_true, if_false, h1, h2, h3]
    have hpv : pyIntVal ('-' :: ds) = -(digitsToNat ds : Int) := rfl
    rw [hpv]
    simp
  | false =>
    cases plus with
    | true =>
      simp only [if_true, Bool.false_eq_true, if_false, List.singleton_append] at h1 h2 ⊢
      have hms : shapeMateSigned ('#' :: (('+' :: ds) ++ [']'])) = none := by
        have : shapeMateSigned ('#' :: (('+' :: ds) ++ [']'])) =
            signedDigits '-' (('+' :: ds) ++ [']']) := rfl
        rw [this, List.cons_append]
        exact signedDigits_none '-' '+' _ (by decide) (by decide)
      have hmp : shapeMatePlus ('#' :: (('+' :: ds) ++ [']'])) = some ('+' :: ds, [']']) := by
        have : shapeMatePlus ('#' :: (('+' :: ds) ++ [']'])) =
            signedDigits '+' (('+' :: ds) ++ [']']) := rfl
        rw [this, List.cons_append]
        exact signedDigits_signed '+' ds [']'] hne hall (by decide)
      have hnbp : ∀ c ∈ '#' :: ('+' :: ds), c ≠ '[' := by
        simpa using hnb
      have h3 := searchEval_ann_none shapeMateSigned '#' ('+' :: ds) (by decide) hnbp
        (by simpa using hms)
      have h4 := searchEval_ann_some shapeMatePlus '#' ('+' :: ds) ('+' :: ds)
        (by decide) (by simpa using hmp)
      simp only [parse_eval_from_comment, hie, Bool.false_eq_true, if_false, h1, h2, h3, h4]
      have hpv : pyIntVal ('+' :: ds) = (digitsToNat ds : Int) := rfl
      rw [hpv]
      simp
    | false =>
      simp only [Bool.false_eq_true, if_false, List.nil_append] at h1 h2 ⊢
      have hms : shapeMateSigned ('#' :: (ds ++ [']'])) = some (ds, [']']) := by
        have : shapeMateSigned ('#' :: (ds ++ [']'])) =
            signedDigits '-' (ds ++ [']']) := rfl
        rw [this]
        exact signedDigits_unsigned '-' (by decide) ds [']'] hne hall (by decide)
      obtain ⟨d, ds', rfl⟩ := List.exists_cons_of_ne_nil hne
      have hd : isDigitChar d = true := by
        simp only [List.all_cons, Bool.and_eq_true] at hall
        exact hall.1
      have h3 := searchEval_ann_some shapeMateSigned '#' (d :: ds') (d :: ds')
        (by decide) (by simpa using hms)
      simp only [parse_eval_from_comment, hie, Bool.false_eq_true, if_false, h1, h2, h3]
      rw [pyIntVal_digits (d :: ds') (by simp) hall]
      simp

/-- `float()` accepts a decimal value with a dot. -/
theorem pyFloatShape_dot (neg : Bool) (intDs fracDs : List Char) (hine : intDs ≠ [])
    (hint : intDs.all isDigitChar = true) (hfrac : fracDs.all isDigitChar = true) :
    pyFloatShape ((if neg then ['-'] else []) ++ intDs ++ '.' :: fracDs) = true := by
  have htw := takeWhile_append_all (p := isDigitChar) intDs ('.' :: fracDs) hint
  rw [takeWhile_head_neg (p := isDigitChar) '.' _ (by decide), List.append_nil] at htw
  have hdr := List.drop_left intDs ('.' :: fracDs)
  have hfw := takeWhile_all (p := isDigitChar) fracDs hfrac
  have hie : intDs.isEmpty = false := by
    obtain ⟨d, ds', rfl⟩ := List.exists_cons_of_ne_nil hine
    rfl
  cases neg with
  | true =>
    rw [show ((if (true : Bool) then ['-'] else []) ++ intDs ++ '.' :: fracDs) =
        '-' :: (intDs ++ '.' :: fracDs) from rfl]
    simp only [pyFloatShape, eq_self_iff_true, if_true, true_or, htw, hdr]
    simp [hie, hfrac]
  | false =>
    simp only [Bool.false_eq_true, if_false, List.nil_append]
    obtain ⟨d, ds', rfl⟩ := List.exists_cons_of_ne_nil hine
    have hd : isDigitChar d = true := by
      simp only [List.all_cons, Bool.and_eq_true] at hint
      exact hint.1
    have hsgn : ¬ (d = '-' ∨ d = '+') := by
      rintro (rfl | rfl) <;> exact absurd hd (by decide)
    simp only [List.cons_append] at htw hdr ⊢
    simp only [pyFloatShape, if_neg hsgn, htw, hdr]
    simp [hie, hfrac]

/-- `float()` accepts a bare signed integer value. -/
theorem pyFloatShape_int (neg : Bool) (ds : List Char) (hne : ds ≠ [])
    (hall : ds.all isDigitChar = true) :
    pyFloatShape ((if neg then ['-'] else []) ++ ds) = true := by
  have htw := takeWhile_all (p := isDigitChar) ds hall
  have hdr := List.drop_length ds
  have hie : ds.isEmpty = false := by
    obtain ⟨d, ds', rfl⟩ := List.exists_cons_of_ne_nil hne
    rfl
  cases neg with
  | true =>
    rw [show ((if (true : Bool) then ['-'] else []) ++ ds) = '-' :: ds from rfl]
    simp only [pyFloatShape, eq_self_iff_true, if_true, true_or, htw, hdr]
    simp [hie]
  | false =>
    simp only [Bool.false_eq_true, if_false, List.nil_append]
    obtain ⟨d, ds', rfl⟩ := List.exists_cons_of_ne_nil hne
    have hd : isDigitChar d = true := by
      simp only [List.all_cons, Bool.and_eq_true] at hall
      exact hall.1
    have hsgn : ¬ (d = '-' ∨ d = '+') := by
      rintro (rfl | rfl) <;> exact absurd hd (by decide)
    simp only [pyFloatShape, if_neg hsgn, htw, hdr]
    simp [hie]

/-- All characters of an optionally negated decimal value differ from a
fixed character that is no digit, no sign and no dot. -/
theorem decimal_chars_ne (neg : Bool) (intDs fracDs : List Char)
    (hint : intDs.all isDigitChar = true) (hfrac : fracDs.all isDigitChar = true)
    (x : Char) (hx : isDigitChar x = false) (hxm : x ≠ '-') (hxd : x ≠ '.') :
    ∀ c ∈ (if neg then ['-'] else []) ++ intDs ++ '.' :: fracDs, c ≠ x := by
  intro c hc
  rcases List.mem_append.mp hc with hs | hf
  · rcases List.mem_append.mp hs with hm | hi
    · cases neg with
      | true =>
        simp only [if_true, List.mem_singleton] at hm
        subst hm
        exact fun he => hxm he.symm
      | false => simp at hm
    · exact digit_ne c x (by simpa using List.all_eq_true.mp hint c hi) hx
  · rcases List.mem_cons.mp hf with rfl | hf2
    · exact fun he => hxd he.symm
    · exact digit_ne c x (by simpa using List.all_eq_true.mp hfrac c hf2) hx

/-- The decimal-with-dot branch of `parse_eval_from_comment`: pattern 1
fails, pattern 2 captures the whole value, the value contains a dot, so
the centipawns are `int(float(v) * 100)` computed in binary64 (with
`None` on `int` overflow). -/
theorem parse_eval_from_comment_dot (neg : Bool) (intDs fracDs : List Char)
    (hine : intDs ≠ []) (hint : intDs.all isDigitChar = true)
    (hfrac : fracDs.all isDigitChar = true) :
    parse_eval_from_comment (evalLit ++ ' ' ::
        ((((if neg then ['-'] else []) ++ intDs ++ '.' :: fracDs)) ++ [']'])) =
      (pyFloatTimes100Int ((if neg then ['-'] else []) ++ intDs ++ '.' :: fracDs)).map
        (fun n => { cp := some n, mate := none }) := by
  have hnb := decimal_chars_ne neg intDs fracDs hint hfrac '[' (by decide) (by decide) (by decide)
  have hsd := shapeDecimal_dot neg intDs fracDs hine hint hfrac
  cases neg with
  | true =>
    rw [show evalLit ++ ' ' ::
        ((((if (true : Bool) then ['-'] else []) ++ intDs ++ '.' :: fracDs)) ++ [']']) =
        evalLit ++ ' ' :: '-' :: ((intDs ++ '.' :: fracDs) ++ [']']) from rfl,
      show pyFloatTimes100Int ((if (true : Bool) then ['-'] else []) ++ intDs ++ '.' :: fracDs) =
        pyFloatTimes100Int ('-' :: (intDs ++ '.' :: fracDs)) from rfl]
    have hnb' : ∀ c ∈ '-' :: (intDs ++ '.' :: fracDs), c ≠ '[' := hnb
    have hsd' : shapeDecimal ('-' :: ((intDs ++ '.' :: fracDs) ++ [']'])) =
        some ('-' :: (intDs ++ '.' :: fracDs), [']']) := hsd
    have hcp : shapeCpEq ('-' :: ((intDs ++ '.' :: fracDs) ++ [']'])) = none :=
      shapeCpEq_none '-' _ (by decide)
    have h1 := searchEval_ann_none shapeCpEq '-' (intDs ++ '.' :: fracDs) (by decide) hnb' hcp
    have h2 := searchEval_ann_some shapeDecimal '-' (intDs ++ '.' :: fracDs)
      ('-' :: (intDs ++ '.' :: fracDs)) (by decide) hsd'
    have hcon : ('-' :: (intDs ++ '.' :: fracDs)).contains '.' = true :=
      contains_of_mem _ _ (by simp)
    have hie : (evalLit ++ ' ' :: '-' :: ((intDs ++ '.' :: fracDs) ++ [']'])).isEmpty =
        false := rfl
    simp only [parse_eval_from_comment, hie, Bool.false_eq_true, if_false, h1, h2, hcon,
      if_true]
  | false =>
    obtain ⟨d, ds', rfl⟩ := List.exists_cons_of_ne_nil hine
    have hd : isDigitChar d = true := by
      simp only [List.all_cons, Bool.and_eq_true] at hint
      exact hint.1
    rw [show evalLit ++ ' ' ::
        ((((if (false : Bool) then ['-'] else []) ++ (d :: ds') ++ '.' :: fracDs)) ++ [']']) =
        evalLit ++ ' ' :: d :: ((ds' ++ '.' :: fracDs) ++ [']']) from rfl,
      show pyFloatTimes100Int
          ((if (false : Bool) then ['-'] else []) ++ (d :: ds') ++ '.' :: fracDs) =
        pyFloatTimes100Int (d :: (ds' ++ '.' :: fracDs)) from rfl]
    have hnb' : ∀ c ∈ d :: (ds' ++ '.' :: fracDs), c ≠ '[' := hnb
    have hsd' : shapeDecimal (d :: ((ds' ++ '.' :: fracDs) ++ [']'])) =
        some (d :: (ds' ++ '.' :: fracDs), [']']) := hsd
    have hcp : shapeCpEq (d :: ((ds' ++ '.' :: fracDs) ++ [']'])) = none :=
      shapeCpEq_none d _ (digit_ne d 'c' hd (by decide))
    have h1 := searchEval_ann_none shapeCpEq d (ds' ++ '.' :: fracDs)
      (not_ws_of_digit d hd) hnb' hcp
    have h2 := searchEval_ann_some shapeDecimal d (ds' ++ '.' :: fracDs)
      (d :: (ds' ++ '.' :: fracDs)) (not_ws_of_digit d hd) hsd'
    have hcon : (d :: (ds' ++ '.' :: fracDs)).contains '.' = true :=
      contains_of_mem _ _ (by simp)
    have hie : (evalLit ++ ' ' :: d :: ((ds' ++ '.' :: fracDs) ++ [']'])).isEmpty =
        false := rfl
    simp only [parse_eval_from_comment, hie, Bool.false_eq_true, if_false, h1, h2, hcon,
      if_true]

/-- The plain-integer branch of `parse_eval_from_comment`: pattern 2
captures the bare integer, there is no dot, and the value is taken as
centipawns unchanged (`int(value)`, not multiplied by 100). -/
theorem parse_eval_from_comment_int (neg : Bool) (ds : List Char)
    (hne : ds ≠ []) (hall : ds.all isDigitChar = true) :
    parse_eval_from_comment (evalLit ++ ' ' :: (((if neg then ['-'] else []) ++ ds) ++ [']'])) =
      some { cp := some ((if neg then (-1 : Int) else 1) * (digitsToNat ds : Int)),
             mate := none } := by
  have hnb : ∀ c ∈ (if neg then ['-'] else []) ++ ds, c ≠ '[' := by
    intro c hc
    rcases List.mem_append.mp hc with hs | hd
    · cases neg with
      | true =>
        simp only [if_true, List.mem_singleton] at hs
        subst hs
        decide
      | false => simp at hs
    · exact digit_ne c '[' (by simpa using List.all_eq_true.mp hall c hd) (by decide)
  have hnd : '.' ∉ (if neg then ['-'] else []) ++ ds := by
    intro hm
    rcases List.mem_append.mp hm with hs | hd
    · cases neg with
      | true => simp at hs
      | false => simp at hs
    · exact absurd (by simpa using List.all_eq_true.mp hall '.' hd) (by decide)
  have hsd := shapeDecimal_int neg ds hne hall
  cases neg with
  | true =>
    rw [show evalLit ++ ' ' :: (((if (true : Bool) then ['-'] else []) ++ ds) ++ [']']) =
        evalLit ++ ' ' :: '-' :: (ds ++ [']']) from rfl]
    have hnb' : ∀ c ∈ '-' :: ds, c ≠ '[' := hnb
    have hnd' : '.' ∉ '-' :: ds := hnd
    have hsd' : shapeDecimal ('-' :: (ds ++ [']'])) = some ('-' :: ds, [']']) := hsd
    have hcp : shapeCpEq ('-' :: (ds ++ [']'])) = none := shapeCpEq_none '-' _ (by decide)
    have h1 := searchEval_ann_none shapeCpEq '-' ds (by decide) hnb' hcp
    have h2 := searchEval_ann_some shapeDecimal '-' ds ('-' :: ds) (by decide) hsd'
    have hcon : ('-' :: ds).contains '.' = false := contains_eq_false _ _ hnd'
    have hie : (evalLit ++ ' ' :: '-' :: (ds ++ [']'])).isEmpty = false := rfl
    simp only [parse_eval_from_comment, hie, Bool.false_eq_true, if_false, h1, h2, hcon]
    have hpv : pyIntVal ('-' :: ds) = -(digitsToNat ds : Int) := rfl
    rw [hpv]
    simp
  | false =>
    obtain ⟨d, ds', rfl⟩ := List.exists_cons_of_ne_nil hne
    have hd : isDigitChar d = true := by
      simp only [List.all_cons, Bool.and_eq_true] at hall
      exact hall.1
    rw [show evalLit ++ ' ' :: (((if (false : Bool) then ['-'] else []) ++ (d :: ds')) ++ [']']) =
        evalLit ++ ' ' :: d :: (ds' ++ [']']) from rfl]
    have hnb' : ∀ c ∈ d :: ds', c ≠ '[' := hnb
    have hnd' : '.' ∉ d :: ds' := hnd
    have hsd' : shapeDecimal (d :: (ds' ++ [']'])) = some (d :: ds', [']']) := hsd
    have hcp : shapeCpEq (d :: (ds' ++ [']'])) = none :=
      shapeCpEq_none d _ (digit_ne d 'c' hd (by decide))
    have h1 := searchEval_ann_none shapeCpEq d ds' (not_ws_of_digit d hd) hnb' hcp
    have h2 := searchEval_ann_some shapeDecimal d ds' (d :: ds') (not_ws_of_digit d hd) hsd'
    have hcon : (d :: ds').contains '.' = false := contains_eq_false _ _ hnd'
    have hie : (evalLit ++ ' ' :: d :: (ds' ++ [']'])).isEmpty = false := rfl
    simp only [parse_eval_from_comment, hie, Bool.false_eq_true, if_false, h1, h2, hcon]
    rw [pyIntVal_digits (d :: ds') (by simp) hall]
    simp

/-- All characters of an optionally signed digit run are non-whitespace. -/
theorem signed_digits_no_ws (neg plus : Bool) (ds : List Char)
    (hall : ds.all isDigitChar = true) :
    ∀ c ∈ (if neg then ['-'] else if plus then ['+'] else []) ++ ds, isPyWs c = false := by
  intro c hc
  rcases List.mem_append.mp hc with hs | hd
  · cases neg with
    | true =>
      simp only [if_true, List.mem_singleton] at hs
      subst hs; decide
    | false =>
      cases plus with
      | true =>
        simp only [if_true, Bool.false_eq_true, if_false, List.mem_singleton] at hs
        subst hs; decide
      | false => simp at hs
  · exact not_ws_of_digit c (by simpa using List.all_eq_true.mp hall c hd)

/-- The mate branch of `parse_eval_comment`: the regex group is the whole
`#` value, stripping is the identity on it, and `int` of the text after
`#` is the mate. -/
theorem parse_eval_comment_mate (neg plus : Bool) (ds : List Char)
    (hne : ds ≠ []) (hall : ds.all isDigitChar = true) :
    parse_eval_comment (evalLit ++ ' ' :: '#' ::
        (((if neg then ['-'] else if plus then ['+'] else []) ++ ds) ++ [']'])) =
      some (none, some ((if neg then (-1 : Int) else 1) * (digitsToNat ds : Int))) := by
  have hnb : ∀ c ∈ '#' :: ((if neg then ['-'] else if plus then ['+'] else []) ++ ds),
      c ≠ ']' := by
    intro c hc
    rcases List.mem_cons.mp hc with rfl | hc2
    · decide
    · exact signed_digits_ne neg plus ds hall ']' (by decide) (by decide) (by decide) c hc2
  have hsearch := searchAnyEval_ann '#' _ (by decide) hnb
  have hstrip : pyStrip ('#' :: ((if neg then ['-'] else if plus then ['+'] else []) ++ ds)) =
      '#' :: ((if neg then ['-'] else if plus then ['+'] else []) ++ ds) := by
    refine pyStrip_no_ws _ ?_
    intro c hc
    rcases List.mem_cons.mp hc with rfl | hc2
    · decide
    · exact signed_digits_no_ws neg plus ds hall c hc2
  have hshape := pyIntShape_true neg plus ds hne hall
  simp only [parse_eval_comment, hsearch, hstrip, eq_self_iff_true, if_true, hshape]
  cases neg with
  | true =>
    have hv : ((if (true : Bool) then ['-'] else if plus then ['+'] else []) ++ ds) =
        '-' :: ds := rfl
    rw [hv]
    have hpv : pyIntVal ('-' :: ds) = -(digitsToNat ds : Int) := rfl
    rw [hpv]
    simp
  | false =>
    cases plus with
    | true =>
      have hv : ((if (false : Bool) then ['-'] else
          if (true : Bool) then ['+'] else []) ++ ds) = '+' :: ds := rfl
      rw [hv]
      have hpv : pyIntVal ('+' :: ds) = (digitsToNat ds : Int) := rfl
      rw [hpv]
      simp
    | false =>
      have hv : ((if (false : Bool) then ['-'] else
          if (false : Bool) then ['+'] else []) ++ ds) = ds := by simp
      rw [hv, pyIntVal_digits ds hne hall]
      simp

/-- The decimal-with-dot branch of `parse_eval_comment`: the group is the
whole value and the centipawns are `int(float(v) * 100)` computed in
binary64 (with `None` on `int` overflow). -/
theorem parse_eval_comment_dot (neg : Bool) (intDs fracDs : List Char)
    (hine : intDs ≠ []) (hint : intDs.all isDigitChar = true)
    (hfrac : fracDs.all isDigitChar = true) :
    parse_eval_comment (evalLit ++ ' ' ::
        ((((if neg then ['-'] else []) ++ intDs ++ '.' :: fracDs)) ++ [']'])) =
      (pyFloatTimes100Int ((if neg then ['-'] else []) ++ intDs ++ '.' :: fracDs)).map
        (fun n => (some n, none)) := by
  have hnb := decimal_chars_ne neg intDs fracDs hint hfrac ']' (by decide) (by decide) (by decide)
  have hpf := pyFloatShape_dot neg intDs fracDs hine hint hfrac
  have hnw : ∀ c ∈ (if neg then ['-'] else []) ++ intDs ++ '.' :: fracDs,
      isPyWs c = false := by
    intro c hc
    rcases List.mem_append.mp hc with hs | hf
    · rcases List.mem_append.mp hs with hm | hi
      · cases neg with
        | true =>
          simp only [if_true, List.mem_singleton] at hm
          subst hm; decide
        | false => simp at hm
      · exact not_ws_of_digit c (by simpa using List.all_eq_true.mp hint c hi)
    · rcases List.mem_cons.mp hf with rfl | hf2
      · decide
      · exact not_ws_of_digit c (by simpa using List.all_eq_true.mp hfrac c hf2)
  cases neg with
  | true =>
    rw [show evalLit ++ ' ' ::
        ((((if (true : Bool) then ['-'] else []) ++ intDs ++ '.' :: fracDs)) ++ [']']) =
        evalLit ++ ' ' :: '-' :: ((intDs ++ '.' :: fracDs) ++ [']']) from rfl,
      show pyFloatTimes100Int ((if (true : Bool) then ['-'] else []) ++ intDs ++ '.' :: fracDs) =
        pyFloatTimes100Int ('-' :: (intDs ++ '.' :: fracDs)) from rfl]
    have hnb' : ∀ c ∈ '-' :: (intDs ++ '.' :: fracDs), c ≠ ']' := hnb
    have hnw' : ∀ c ∈ '-' :: (intDs ++ '.' :: fracDs), isPyWs c = false := hnw
    have hpf' : pyFloatShape ('-' :: (intDs ++ '.' :: fracDs)) = true := hpf
    have hsearch := searchAnyEval_ann '-' (intDs ++ '.' :: fracDs) (by decide) hnb'
    have hstrip := pyStrip_no_ws _ hnw'
    simp only [parse_eval_comment, hsearch, hstrip]
    simp only [if_neg (by decide : ¬ ('-' = '#')), hpf', if_true]
  | false =>
    obtain ⟨d, ds', rfl⟩ := List.exists_cons_of_ne_nil hine
    have hd : isDigitChar d = true := by
      simp only [List.all_cons, Bool.and_eq_true] at hint
      exact hint.1
    rw [show evalLit ++ ' ' ::
        ((((if (false : Bool) then ['-'] else []) ++ (d :: ds') ++ '.' :: fracDs)) ++ [']']) =
        evalLit ++ ' ' :: d :: ((ds' ++ '.' :: fracDs) ++ [']']) from rfl,
      show pyFloatTimes100Int
          ((if (false : Bool) then ['-'] else []) ++ (d :: ds') ++ '.' :: fracDs) =
        pyFloatTimes100Int (d :: (ds' ++ '.' :: fracDs)) from rfl]
    have hnb' : ∀ c ∈ d :: (ds' ++ '.' :: fracDs), c ≠ ']' := hnb
    have hnw' : ∀ c ∈ d :: (ds' ++ '.' :: fracDs), isPyWs c = false := hnw
    have hpf' : pyFloatShape (d :: (ds' ++ '.' :: fracDs)) = true := hpf
    have hsearch := searchAnyEval_ann d (ds' ++ '.' :: fracDs) (not_ws_of_digit d hd) hnb'
    have hstrip := pyStrip_no_ws _ hnw'
    simp only [parse_eval_comment, hsearch, hstrip]
    simp only [if_neg (digit_ne d '#' hd (by decide)), hpf', if_true]

/-- The plain-integer branch of `parse_eval_comment`: `float` accepts the
integer too, so — unlike `parse_eval_from_comment` — the centipawns are
`int(float(v) * 100)` of the integer, computed in binary64. -/
theorem parse_eval_comment_int (neg : Bool) (ds : List Char)
    (hne : ds ≠ []) (hall : ds.all isDigitChar = true) :
    parse_eval_comment (evalLit ++ ' ' :: (((if neg then ['-'] else []) ++ ds) ++ [']'])) =
      (pyFloatTimes100Int ((if neg then ['-'] else []) ++ ds)).map
        (fun n => (some n, none)) := by
  have hnb : ∀ c ∈ (if neg then ['-'] else []) ++ ds, c ≠ ']' := by
    intro c hc
    rcases List.mem_append.mp hc with hs | hd
    · cases neg with
      | true =>
        simp only [if_true, List.mem_singleton] at hs
        subst hs; decide
      | false => simp at hs
    · exact digit_ne c ']' (by simpa using List.all_eq_true.mp hall c hd) (by decide)
  have hnw := signed_digits_no_ws neg false ds hall
  have hpf := pyFloatShape_int neg ds hne hall
  cases neg with
  | true =>
    rw [show evalLit ++ ' ' :: (((if (true : Bool) then ['-'] else []) ++ ds) ++ [']']) =
        evalLit ++ ' ' :: '-' :: (ds ++ [']']) from rfl,
      show pyFloatTimes100Int ((if (true : Bool) then ['-'] else []) ++ ds) =
        pyFloatTimes100Int ('-' :: ds) from rfl]
    have hnb' : ∀ c ∈ '-' :: ds, c ≠ ']' := hnb
    have hnw' : ∀ c ∈ '-' :: ds, isPyWs c = false := hnw
    have hpf' : pyFloatShape ('-' :: ds) = true := hpf
    have hsearch := searchAnyEval_ann '-' ds (by decide) hnb'
    have hstrip := pyStrip_no_ws _ hnw'
    simp only [parse_eval_comment, hsearch, hstrip]
    simp only [if_neg (by decide : ¬ ('-' = '#')), hpf', if_true]
  | false =>
    obtain ⟨d, ds', rfl⟩ := List.exists_cons_of_ne_nil hne
    have hd : isDigitChar d = true := by
      simp only [List.all_cons, Bool.and_eq_true] at hall
      exact hall.1
    rw [show evalLit ++ ' ' :: (((if (false : Bool) then ['-'] else []) ++ (d :: ds')) ++ [']']) =
        evalLit ++ ' ' :: d :: (ds' ++ [']']) from rfl,
      show pyFloatTimes100Int ((if (false : Bool) then ['-'] else []) ++ (d :: ds')) =
        pyFloatTimes100Int (d :: ds') from rfl]
    have hnb' : ∀ c ∈ d :: ds', c ≠ ']' := hnb
    have hnw' : ∀ c ∈ d :: ds', isPyWs c = false := by
      intro c hc
      exact hnw c (by simpa using hc)
    have hpf' : pyFloatShape (d :: ds') = true := hpf
    have hsearch := searchAnyEval_ann d ds' (not_ws_of_digit d hd) hnb'
    have hstrip := pyStrip_no_ws _ hnw'
    simp only [parse_eval_comment, hsearch, hstrip]
    simp only [if_neg (digit_ne d '#' hd (by decide)), hpf', if_true]

/-- C4 counterexample: the claim's non-`#` rule — a decimal number of
pawns multiplied by 100 and truncated to integer — fails twice over.
`pgn_parser.parse_eval_from_comment` returns a plain integer value
unchanged, so `[%eval 20]` yields `cp = 20`, not 2000; and the conversion
runs through binary64 floating point, so `[%eval 0.29]` yields `cp = 28`,
not the exact `0.29 × 100 = 29` truncated. -/
theorem eval_comment_parsers_counterexample :
    parse_eval_from_comment ("[%eval 20]".toList) =
      some { cp := some 20, mate := none, depth := none, nodes := none, pv := [] } ∧
    parse_eval_from_comment ("[%eval 20]".toList) ≠
      some { cp := some 2000, mate := none, depth := none, nodes := none, pv := [] } ∧
    parse_eval_comment ("[%eval 0.29]".toList) = some (some 28, none) ∧
    parse_eval_comment ("[%eval 0.29]".toList) ≠ some (some 29, none) := by
  decide

/-- C4 (amended): for a move annotation `[%eval <value>]`, both parsers
map a value `#<m>` (optionally signed integer `m`) to mate `m` with null
centipawns; a value containing a decimal point is converted to centipawns
as `int(float(v) * 100)` in IEEE-754 binary64 arithmetic — multiply by
100 and truncate, up to float rounding: `0.23` gives 23 but `0.29` gives
28 — in both parsers, with the parser returning `None` when `int`
overflows; and a plain integer value is taken as centipawns unchanged by
`pgn_parser.parse_eval_from_comment`, while
`game_stats.parse_eval_comment` sends every non-mate value — integers
included — through the same `int(float(v) * 100)` conversion.  The six
conjuncts cover, in order: the mate, dot-decimal and plain-integer cases
of `parse_eval_from_comment`, then the same three cases of
`parse_eval_comment`. -/
theorem eval_comment_parsers_spec (neg plus : Bool) (ds intDs fracDs : List Char)
    (hne : ds ≠ []) (hall : ds.all isDigitChar = true)
    (hine : intDs ≠ []) (hint : intDs.all isDigitChar = true)
    (hfrac : fracDs.all isDigitChar = true) :
    parse_eval_from_comment (evalLit ++ ' ' :: '#' ::
        (((if neg then ['-'] else if plus then ['+'] else []) ++ ds) ++ [']'])) =
      some { cp := none,
             mate := some ((if neg then (-1 : Int) else 1) * (digitsToNat ds : Int)) } ∧
    parse_eval_from_comment (evalLit ++ ' ' ::
        ((((if neg then ['-'] else []) ++ intDs ++ '.' :: fracDs)) ++ [']'])) =
      (pyFloatTimes100Int ((if neg then ['-'] else []) ++ intDs ++ '.' :: fracDs)).map
        (fun n => { cp := some n, mate := none }) ∧
    parse_eval_from_comment (evalLit ++ ' ' ::
        (((if neg then ['-'] else []) ++ ds) ++ [']'])) =
      some { cp := some ((if neg then (-1 : Int) else 1) * (digitsToNat ds : Int)),
             mate := none } ∧
    parse_eval_comment (evalLit ++ ' ' :: '#' ::
        (((if neg then ['-'] else if plus then ['+'] else []) ++ ds) ++ [']'])) =
      some (none, some ((if neg then (-1 : Int) else 1) * (digitsToNat ds : Int))) ∧
    parse_eval_comment (evalLit ++ ' ' ::
        ((((if neg then ['-'] else []) ++ intDs ++ '.' :: fracDs)) ++ [']'])) =
      (pyFloatTimes100Int ((if neg then ['-'] else []) ++ intDs ++ '.' :: fracDs)).map
        (fun n => (some n, none)) ∧
    parse_eval_comment (evalLit ++ ' ' :: (((if neg then ['-'] else []) ++ ds) ++ [']'])) =
      (pyFloatTimes100Int ((if neg then ['-'] else []) ++ ds)).map
        (fun n => (some n, none)) :=
  ⟨parse_eval_from_comment_mate neg plus ds hne hall,
   parse_eval_from_comment_dot neg intDs fracDs hine hint hfrac,
   parse_eval_from_comment_int neg ds hne hall,
   parse_eval_comment_mate neg plus ds hne hall,
   parse_eval_comment_dot neg intDs fracDs hine hint hfrac,
   parse_eval_comment_int neg ds hne hall⟩

/-- Witness for C4 (amended): the spec's example annotations, the
float-rounded `0.29` and the integer-times-100 case, via the amended
theorem at concrete digit strings. -/
theorem eval_comment_parsers_spec_witness :
    parse_eval_from_comment ("[%eval #-2]".toList) =
      some { cp := none, mate := some (-2), depth := none, nodes := none, pv := [] } ∧
    parse_eval_from_comment ("[%eval 0.23]".toList) =
      some { cp := some 23, mate := none, depth := none, nodes := none, pv := [] } ∧
    parse_eval_from_comment ("[%eval 0.29]".toList) =
      some { cp := some 28, mate := none, depth := none, nodes := none, pv := [] } ∧
    parse_eval_comment ("[%eval #-2]".toList) = some (none, some (-2)) ∧
    parse_eval_comment ("[%eval 0.23]".toList) = some (some 23, none) ∧
    parse_eval_comment ("[%eval 20]".toList) = some (some 2000, none) := by
  have hA := eval_comment_parsers_spec true false ['2'] ['0'] ['2', '3']
    (by decide) (by decide) (by decide) (by decide) (by decide)
  have hB := eval_comment_parsers_spec false false ['2', '0'] ['0'] ['2', '3']
    (by decide) (by decide) (by decide) (by decide) (by decide)
  have hC := eval_comment_parsers_spec false false ['2', '0'] ['0'] ['2', '9']
    (by decide) (by decide) (by decide) (by decide) (by decide)
  exact ⟨hA.1.trans (by decide), hB.2.1.trans (by decide), hC.2.1.trans (by decide),
    hA.2.2.2.1.trans (by decide), hB.2.2.2.2.1.trans (by decide),
    hB.2.2.2.2.2.trans (by decide)⟩

/-- C6: against the response sequence [429, 429, 200], `fetch_cloud_eval`
with `max_retries = 2` makes exactly two attempts and ends in the
rate-limit error without ever returning a value, while with
`max_retries = 3` it succeeds on the third attempt and returns the parsed
evaluation of the 200 response. -/
theorem fetch_cloud_eval_retry_spec :
    fetch_cloud_eval resp_429_429_200 "startpos" 15 2 =
      (2, Except.error FetchError.rateLimited) ∧
    fetch_cloud_eval resp_429_429_200 "startpos" 15 3 =
      (3, Except.ok
        { fen := "rnbq-after", cp := some 18, mate := none, depth := 40,
          nodes := 105000, pv := ["e7e5", "g1f3"] }) := by
  constructor <;> rfl

/-- Every character of every line produced by `splitLinesNl` is a
character of the input. -/
theorem splitLinesNl_mem_mem {cs l : List Char} {c : Char}
    (hl : l ∈ splitLinesNl cs) (hc : c ∈ l) : c ∈ cs := by
  induction cs generalizing l with
  | nil =>
    simp only [splitLinesNl, List.mem_singleton] at hl
    subst hl
    simp at hc
  | cons x rest ih =>
    simp only [splitLinesNl] at hl
    by_cases hx : x = '\n'
    · rw [if_pos hx] at hl
      rcases List.mem_cons.mp hl with rfl | hl'
      · simp at hc
      · exact List.mem_cons_of_mem _ (ih hl' hc)
    · rw [if_neg hx] at hl
      rcases hrec : splitLinesNl rest with _ | ⟨l0, ls⟩
      · rw [hrec] at hl
        simp only [List.mem_singleton] at hl
        subst hl
        rcases List.mem_singleton.mp hc with rfl
        exact List.mem_cons_self _ _
      · rw [hrec] at hl
        rcases List.mem_cons.mp hl with rfl | hl'
        · rcases List.mem_cons.mp hc with rfl | hc'
          · exact List.mem_cons_self _ _
          · exact List.mem_cons_of_mem _
              (ih (hrec ▸ List.mem_cons_self _ _) hc')
        · exact List.mem_cons_of_mem _ (ih (hrec ▸ List.mem_cons_of_mem _ hl') hc)

/-- `pyStrip` of an all-whitespace list is empty. -/
theorem pyStrip_all_ws {cs : List Char} (h : ∀ c ∈ cs, isPyWs c = true) :
    pyStrip cs = [] := by
  have h1 : cs.dropWhile isPyWs = [] := by
    rw [List.dropWhile_eq_nil_iff]
    exact h
  simp [pyStrip, h1]

/-- `build_move_text` of an all-whitespace input is empty: every line
strips to nothing, so nothing is accumulated. -/
theorem build_move_text_all_ws {cs : List Char} (h : ∀ c ∈ cs, isPyWs c = true) :
    build_move_text cs = [] := by
  have hlines : ∀ l ∈ splitLinesNl cs, pyStrip l = [] := fun l hl =>
    pyStrip_all_ws (fun c hc => h c (splitLinesNl_mem_mem hl hc))
  have hfold : ∀ ls : List (List Char), (∀ l ∈ ls, pyStrip l = []) →
      ls.foldl
        (fun acc line =>
          match pyStrip line with
          | [] => acc
          | c :: cs => if c = '[' then acc else acc ++ (' ' :: c :: cs))
        [] = [] := by
    intro ls
    induction ls with
    | nil => intro _; rfl
    | cons l ls ih =>
      intro hall
      have h0 : pyStrip l = [] := hall l (List.mem_cons_self _ _)
      simp only [List.foldl_cons, h0]
      exact ih (fun x hx => hall x (List.mem_cons_of_mem _ hx))
  rw [build_move_text, hfold _ hlines]
  rfl

/-- C7: for every empty or whitespace-only input string, `parse_pgn_moves`
returns the empty move list — whether the external `read_game`
collaborator raises, returns no game, or returns a game with an empty
mainline — so no failure of the primary parser propagates out of it. -/
theorem parse_pgn_moves_whitespace_spec
    (readGame : String → PgnReadResult) (s : String)
    (hws : ∀ c ∈ s.toList, isPyWs c = true)
    (hrg : readGame s = .failed ∨ readGame s = .noGame ∨ readGame s = .game []) :
    parse_pgn_moves readGame s = [] := by
  have hmt : build_move_text s.toList = [] := build_move_text_all_ws hws
  have hrb : remove_brackets (remove_braces (build_move_text s.toList)) = [] := by
    rw [hmt]
    simp [remove_braces, remove_brackets]
  have hfb : regex_fallback_moves
      (remove_brackets (remove_braces (build_move_text s.toList))) = [] := by
    rw [hrb]
    simp [regex_fallback_moves, fallbackMatches]
  have hfb' : regex_fallback_moves
      (remove_brackets (remove_braces (build_move_text s.data))) = [] := hfb
  rcases hrg with h | h | h <;> simp [parse_pgn_moves, h, hfb']

/-- Witness for C7: a concrete whitespace-only string with a `read_game`
collaborator that finds no game yields the empty move list. -/
theorem parse_pgn_moves_whitespace_spec_witness :
    (∀ c ∈ "  \n\t ".toList, isPyWs c = true) ∧
      parse_pgn_moves (fun _ => PgnReadResult.noGame) "  \n\t " = [] :=
  ⟨by decide,
   parse_pgn_moves_whitespace_spec (fun _ => PgnReadResult.noGame) "  \n\t "
     (by decide) (Or.inr (Or.inl rfl))⟩

end LichessAnalyzer
